import Mathlib

/-!
Verification development for the matrix-monitor repository (digital rain
animation engine).  The definitions below are a shallow embedding of the
scheduling core of src/unnamed/part_000 (the variant with the
onAppear/onFade/onDelete renderer hooks); src/src/matrix-monitor.js is a
near duplicate of the same core.  JavaScript timers are modelled as an
explicit scheduler state holding cancellable pending tasks; Math.random
draws are supplied as explicit oracle arguments; JS strings are Lean
strings, with null/undefined modelled as Option.none.
-/

namespace MatrixMon

/-- JS truthiness of an optional string value: null/undefined and the empty
string are falsy, every other string is truthy. -/
def strTruthy : Option String → Bool
  | none => false
  | some s => s ≠ ""

/-- JS truthiness of an optional numeric option field: undefined and 0 are
falsy, every other number is truthy. -/
def numTruthy : Option Int → Bool
  | none => false
  | some n => n ≠ 0

/-- Embeds the helper random(from, to) = floor(random()*(to-from)+from).
For lo < hi the set of possible results is exactly the integer interval
from lo to hi-1; the oracle draw x selects one of them. -/
def randomInt (lo hi x : Nat) : Nat := lo + x % (hi - lo)

/-- Embeds monitor.getRandomChar (part_000 lines 283-292).  The alphabet is
the configured glyph list (JS string indexing); the draw x selects the
index (random(0, length - 0.000001) floors to an index in 0..length-1).
If the exclusion argument is truthy and equal to the drawn glyph, the code
substitutes entry 0 when the drawn index is nonzero, else entry 1. -/
def getRandomChar (alphabet : List String) (except : Option String) (x : Nat) : String :=
  let index := x % alphabet.length
  let char := alphabet.getD index ""
  if strTruthy except = true ∧ except = some char then
    if index ≠ 0 then alphabet.getD 0 "" else alphabet.getD 1 ""
  else char

/-- The per-cell update record (cell.update in the source): pending timer
handle, the delay it was scheduled with, the droplet progression, the next
glyph to display, and the has-displayed flag. -/
structure CellUpdate where
  timer : Option Nat := none
  delay : Option Nat := none
  progression : Option Nat := none
  nextChar : Option String := none
  isUpdated : Bool := false
deriving DecidableEq, Repr

/-- The payload of a scheduled one-shot task: which source callback the
setTimeout call registered, with the arguments captured at scheduling
time. -/
inductive Action where
  | updateCell (colIdx rowIdx : Nat) (char : Option String)
  | spawnDroplet (colIdx : Nat) (clearScreen : Bool) (charList : List (Option String))
  | startBody
  | pauseBody (onlyTopCells allAtOnce : Bool) (minPauseDelay maxPauseDelay : Nat)
  | cancelTimer (handle : Option Nat)
  | pauseSweep (onlyTopCells : Bool)
  | resumeBody (onlyTopCells : Bool)
  | stopBody (clearScreen : Bool)
  | glitchCall
deriving DecidableEq, Repr

/-- A pending one-shot task: its opaque handle, the delay it was scheduled
with, and its payload. -/
structure Task where
  id : Nat
  delay : Nat
  action : Action
deriving DecidableEq, Repr

/-- The one-shot timer registry: setTimeout returns a fresh handle and adds
a pending task, clearTimeout removes the task with a given handle (a no-op
for null handles and already fired or cancelled ones). -/
structure Sched where
  nextId : Nat
  tasks : List Task
deriving DecidableEq, Repr

/-- setTimeout: allocate a fresh handle and append the pending task. -/
def Sched.schedule (s : Sched) (delay : Nat) (a : Action) : Nat × Sched :=
  (s.nextId, ⟨s.nextId + 1, s.tasks ++ [⟨s.nextId, delay, a⟩]⟩)

/-- clearTimeout: drop the pending task with the given handle, if any. -/
def Sched.cancel (s : Sched) : Option Nat → Sched
  | none => s
  | some t => ⟨s.nextId, s.tasks.filter (fun tk => tk.id != t)⟩

/-- Whether a handle still has a pending task. -/
def Sched.pending (s : Sched) : Option Nat → Bool
  | none => false
  | some t => s.tasks.any (fun tk => tk.id == t)

end MatrixMon

namespace MatrixMon

/-! Basic scheduler lemmas. -/

theorem Sched.nextId_cancel (s : Sched) (h : Option Nat) :
    (s.cancel h).nextId = s.nextId := by
  cases h <;> rfl

theorem Sched.nextId_schedule (s : Sched) (d : Nat) (a : Action) :
    (s.schedule d a).2.nextId = s.nextId + 1 := rfl

theorem Sched.fst_schedule (s : Sched) (d : Nat) (a : Action) :
    (s.schedule d a).1 = s.nextId := rfl

theorem Sched.pending_schedule (s : Sched) (d : Nat) (a : Action) (t : Nat) :
    (s.schedule d a).2.pending (some t) =
      (s.pending (some t) || (s.nextId == t)) := by
  simp [Sched.schedule, Sched.pending, List.any_append]

theorem Sched.pending_cancel_self (s : Sched) (t : Nat) :
    (s.cancel (some t)).pending (some t) = false := by
  simp only [Sched.cancel, Sched.pending]
  rw [List.any_eq_false]
  intro tk htk
  have := List.of_mem_filter htk
  simpa using this

theorem Sched.pending_cancel_ne (s : Sched) (h : Option Nat) (t : Nat)
    (hne : h ≠ some t) : (s.cancel h).pending (some t) = s.pending (some t) := by
  cases h with
  | none => rfl
  | some u =>
    have hut : u ≠ t := fun he => hne (by rw [he])
    simp only [Sched.cancel, Sched.pending]
    refine Bool.eq_iff_iff.mpr ?_
    simp only [List.any_eq_true, List.mem_filter]
    constructor
    · rintro ⟨tk, ⟨htk, _⟩, hid⟩
      exact ⟨tk, htk, hid⟩
    · rintro ⟨tk, htk, hid⟩
      refine ⟨tk, ⟨htk, ?_⟩, hid⟩
      simp only [beq_iff_eq] at hid
      simp only [bne_iff_ne, ne_eq, hid]
      exact hut.symm

theorem Sched.pending_cancel_false (s : Sched) (h : Option Nat) (t : Nat)
    (hp : s.pending (some t) = false) : (s.cancel h).pending (some t) = false := by
  by_cases he : h = some t
  · subst he; exact s.pending_cancel_self t
  · rw [s.pending_cancel_ne h t he]; exact hp

theorem Sched.pending_cancel_true (s : Sched) (h : Option Nat) (t : Nat)
    (hne : h ≠ some t) (hp : s.pending (some t) = true) :
    (s.cancel h).pending (some t) = true := by
  rw [s.pending_cancel_ne h t hne]; exact hp

theorem Sched.pending_schedule_lt (s : Sched) (d : Nat) (a : Action) (t : Nat)
    (hlt : t < s.nextId) :
    (s.schedule d a).2.pending (some t) = s.pending (some t) := by
  rw [Sched.pending_schedule]
  have : (s.nextId == t) = false := by
    simp only [beq_eq_false_iff_ne, ne_eq]
    omega
  rw [this, Bool.or_false]

theorem Sched.mem_schedule (s : Sched) (d : Nat) (a : Action) (tk : Task)
    (h : tk ∈ s.tasks) : tk ∈ (s.schedule d a).2.tasks := by
  simp [Sched.schedule, List.mem_append, h]

theorem Sched.self_mem_schedule (s : Sched) (d : Nat) (a : Action) :
    (⟨s.nextId, d, a⟩ : Task) ∈ (s.schedule d a).2.tasks := by
  simp [Sched.schedule]

theorem Sched.cancel_eq_self (s : Sched) (h : Option Nat)
    (hp : s.pending h = false) : s.cancel h = s := by
  cases h with
  | none => rfl
  | some t =>
    simp only [Sched.cancel]
    have : s.tasks.filter (fun tk => tk.id != t) = s.tasks := by
      apply List.filter_eq_self.mpr
      intro tk htk
      simp only [Sched.pending, List.any_eq_false] at hp
      have := hp tk htk
      simpa using this
    rw [this]

theorem Sched.mem_tasks_pending (s : Sched) (tk : Task) (h : tk ∈ s.tasks) :
    s.pending (some tk.id) = true := by
  simp only [Sched.pending, List.any_eq_true]
  exact ⟨tk, h, by simp⟩

end MatrixMon

namespace MatrixMon

/-! Claim C2 theorems: the Character Source and its anti-repeat rule. -/

/-- Counterexample for claim C2 as stated.  The alphabet a, b, a contains
at least two distinct glyphs and the exclusion a is non-empty, yet the
draw selecting index 2 picks the duplicate a at a nonzero index and the
substitution rule then returns entry 0, which is again the excluded glyph
a.  So getRandomChar can return the excluded glyph for an alphabet with
repeated entries. -/
theorem getRandomChar_claim_counterexample :
    getRandomChar ["a", "b", "a"] (some "a") 2 = "a"
      ∧ strTruthy (some "a") = true
      ∧ "a" ∈ (["a", "b", "a"] : List String)
      ∧ "b" ∈ (["a", "b", "a"] : List String)
      ∧ "a" ≠ "b" := by
  refine ⟨?_, rfl, by simp, by simp, by decide⟩
  rfl

/-- Claim C2, amended: when the configured alphabet has pairwise distinct
glyphs and at least two of them, getRandomChar never returns a non-empty
excluded glyph; moreover, whenever the drawn glyph equals the excluded
one, the result is the first glyph of the alphabet, or the second glyph
when the excluded glyph is the first. -/
theorem getRandomChar_eval (alphabet : List String) (except : Option String) (x : Nat) :
    getRandomChar alphabet except x =
      if strTruthy except = true ∧ except = some (alphabet.getD (x % alphabet.length) "") then
        (if x % alphabet.length ≠ 0 then alphabet.getD 0 "" else alphabet.getD 1 "")
      else alphabet.getD (x % alphabet.length) "" := rfl

theorem getRandomChar_never_excluded (alphabet : List String) (e : String) (x : Nat)
    (hnd : alphabet.Nodup) (hlen : 2 ≤ alphabet.length) (he : e ≠ "") :
    getRandomChar alphabet (some e) x ≠ e
      ∧ (alphabet.getD (x % alphabet.length) "" = e →
          getRandomChar alphabet (some e) x =
            if e = alphabet.getD 0 "" then alphabet.getD 1 "" else alphabet.getD 0 "") := by
  have hpos : 0 < alphabet.length := by omega
  have hi : x % alphabet.length < alphabet.length := Nat.mod_lt _ hpos
  have h1 : 1 < alphabet.length := by omega
  have hget0 : alphabet.getD 0 "" = alphabet.get ⟨0, by omega⟩ := by
    simp [List.getD_eq_getElem?_getD, List.getElem?_eq_getElem (by omega : 0 < alphabet.length)]
  have hget1 : alphabet.getD 1 "" = alphabet.get ⟨1, h1⟩ := by
    simp [List.getD_eq_getElem?_getD, List.getElem?_eq_getElem h1]
  have hgeti : alphabet.getD (x % alphabet.length) "" = alphabet.get ⟨x % alphabet.length, hi⟩ := by
    simp [List.getD_eq_getElem?_getD, List.getElem?_eq_getElem hi]
  rw [getRandomChar_eval]
  by_cases hc : alphabet.getD (x % alphabet.length) "" = e
  · -- the drawn glyph equals the excluded glyph
    have hcond : strTruthy (some e) = true ∧ (some e : Option String) =
        some (alphabet.getD (x % alphabet.length) "") := by
      constructor
      · simpa [strTruthy] using he
      · rw [hc]
    rw [if_pos hcond]
    by_cases hz : x % alphabet.length = 0
    · -- drawn at index 0, so the excluded glyph is the first one
      have he0 : e = alphabet.getD 0 "" := by rw [← hc, hz]
      have hne01 : alphabet.getD 1 "" ≠ e := by
        rw [hget0] at he0
        rw [hget1, he0]
        intro hcontra
        have := (List.Nodup.get_inj_iff hnd).mp hcontra
        simp at this
      rw [if_neg (not_not_intro hz)]
      exact ⟨hne01, fun _ => by rw [if_pos he0]⟩
    · -- drawn at a nonzero index, so the excluded glyph is not the first
      have hne0e : alphabet.getD 0 "" ≠ e := by
        rw [hget0, ← hc, hgeti]
        intro hcontra
        have := (List.Nodup.get_inj_iff hnd).mp hcontra
        simp at this
        omega
      rw [if_pos hz]
      exact ⟨hne0e, fun _ => by rw [if_neg (fun hee => hne0e hee.symm)]⟩
  · -- the drawn glyph differs from the excluded glyph: it is returned as is
    have hcond : ¬(strTruthy (some e) = true ∧ (some e : Option String) =
        some (alphabet.getD (x % alphabet.length) "")) := by
      intro ⟨_, habs⟩
      exact hc (by injection habs with h2; exact h2.symm)
    rw [if_neg hcond]
    exact ⟨hc, fun habs => absurd habs hc⟩

/-- Witness for the amended claim C2 at a concrete alphabet and draw. -/
theorem getRandomChar_never_excluded_witness :
    (["a", "b"] : List String).Nodup ∧ 2 ≤ (["a", "b"] : List String).length
      ∧ ("b" : String) ≠ ""
      ∧ getRandomChar ["a", "b"] (some "b") 1 ≠ "b" :=
  ⟨by decide, by decide, by decide,
    (getRandomChar_never_excluded ["a", "b"] "b" 1 (by decide) (by decide) (by decide)).1⟩

end MatrixMon

namespace MatrixMon

/-! The Droplet Cascade Generator (monitor.createDroplet). -/

/-- Options record of monitor.createDroplet. -/
structure DropletOptions where
  clearScreen : Bool := false
  charList : List (Option String) := []
deriving DecidableEq, Repr

/-- Configuration slice consumed by the scheduling core: the timing and
alphabet entries of MatrixMonitor.DEFAULT_OPTIONS merged with caller
options.  Delays may be negative in JS, hence Int for initialDelay and
mainLoopDuration; null mainLoopDuration is none. -/
structure Options where
  alphabet : List String
  initialDelay : Int := 1000
  mainLoopInterval : Nat := 10000
  mainLoopDuration : Option Int := none
  minCharStartDelay : Nat := 500
  maxCharStartDelay : Nat := 10000
  minCharProgression : Nat := 200
  maxCharProgression : Nat := 800
deriving DecidableEq, Repr

/-- The glyph chosen for the cell at row i during a createDroplet walk:
the empty glyph when clearing, else the charList entry for the row when
that entry is a string (an explicit empty string is kept), else a fresh
sample excluding the previous glyph of this droplet.  A null or missing
charList entry is modelled as none. -/
def dropletChar (alphabet : List String) (clearScreen : Bool)
    (charList : List (Option String)) (draws : Nat → Nat)
    (i : Nat) (previousChar : Option String) : String :=
  if clearScreen then ""
  else
    match charList.getD i none with
    | some g => g
    | none => getRandomChar alphabet previousChar (draws i)

/-- The walk of createDroplet over the remaining cells of the column:
choose the glyph, cancel the previously pending update of the cell,
schedule the new update task at the accumulated delay, overwrite the cell
UpdateState, then continue with delay increased by the progression and the
chosen glyph as the new exclusion. -/
def createDropletGo (alphabet : List String) (colIdx : Nat) (clearScreen : Bool)
    (charList : List (Option String)) (draws : Nat → Nat) (progression : Nat) :
    List CellUpdate → Nat → Nat → Option String → Sched → List CellUpdate × Sched
  | [], _i, _delay, _prev, s => ([], s)
  | c :: rest, i, delay, prev, s =>
    let char := dropletChar alphabet clearScreen charList draws i prev
    let s1 := Sched.cancel s c.timer
    let pr := Sched.schedule s1 delay (Action.updateCell colIdx i (some char))
    let q := createDropletGo alphabet colIdx clearScreen charList draws progression
      rest (i + 1) (delay + progression) (some char) pr.2
    (({ timer := some pr.1, delay := some delay, progression := some progression,
        nextChar := some char, isUpdated := false } : CellUpdate) :: q.1, q.2)

/-- Embeds monitor.createDroplet (part_000 lines 334-370): one draw picks
the droplet progression bounded by the configured min/max character
progression, then the column is walked from the top cell with accumulated
delay starting at 0. -/
def createDroplet (opts : Options) (colIdx : Nat) (dopts : DropletOptions)
    (pdraw : Nat) (draws : Nat → Nat) (cells : List CellUpdate) (s : Sched) :
    List CellUpdate × Sched :=
  let progression := randomInt opts.minCharProgression opts.maxCharProgression pdraw
  createDropletGo opts.alphabet colIdx dopts.clearScreen dopts.charList draws progression
    cells 0 0 none s

/-- The glyph sequence a createDroplet walk assigns to n consecutive cells
starting at row i, each glyph becoming the exclusion for the next one. -/
def dropletChars (alphabet : List String) (clearScreen : Bool)
    (charList : List (Option String)) (draws : Nat → Nat) :
    Nat → Nat → Option String → List String
  | 0, _i, _prev => []
  | n + 1, i, prev =>
    let ch := dropletChar alphabet clearScreen charList draws i prev
    ch :: dropletChars alphabet clearScreen charList draws n (i + 1) (some ch)

/-- The update tasks a createDroplet walk schedules, with consecutive
fresh handles and delays advancing by the progression. -/
def dropletTaskList (colIdx p : Nat) : List String → Nat → Nat → Nat → List Task
  | [], _nid, _delay, _i => []
  | ch :: rest, nid, delay, i =>
    ⟨nid, delay, Action.updateCell colIdx i (some ch)⟩ ::
      dropletTaskList colIdx p rest (nid + 1) (delay + p) (i + 1)

theorem timer_all_lt {c : CellUpdate} {n t : Nat}
    (h : c.timer.all (fun u => decide (u < n)) = true) (ht : c.timer = some t) : t < n := by
  rw [ht] at h
  simpa using h

theorem dropletChars_length (alphabet : List String) (clearScreen : Bool)
    (charList : List (Option String)) (draws : Nat → Nat) :
    ∀ n i prev, (dropletChars alphabet clearScreen charList draws n i prev).length = n := by
  intro n
  induction n with
  | zero => intro i prev; rfl
  | succ n ih =>
    intro i prev
    simp only [dropletChars, List.length_cons, ih]

theorem dropletTaskList_length (colIdx p : Nat) :
    ∀ chars nid delay i, (dropletTaskList colIdx p chars nid delay i).length = chars.length := by
  intro chars
  induction chars with
  | nil => intro nid delay i; rfl
  | cons ch rest ih =>
    intro nid delay i
    simp only [dropletTaskList, List.length_cons, ih]

theorem dropletTaskList_get (colIdx p : Nat) :
    ∀ chars nid delay i k, k < chars.length →
      (dropletTaskList colIdx p chars nid delay i).get? k =
        some ⟨nid + k, delay + k * p, Action.updateCell colIdx (i + k) (some (chars.getD k ""))⟩ := by
  intro chars
  induction chars with
  | nil => intro nid delay i k hk; simp at hk
  | cons ch rest ih =>
    intro nid delay i k hk
    cases k with
    | zero => simp [dropletTaskList, List.getD]
    | succ k =>
      simp only [dropletTaskList, List.get?_cons_succ]
      rw [ih (nid + 1) (delay + p) (i + 1) k (by simpa using hk)]
      have h1 : nid + 1 + k = nid + (k + 1) := by omega
      have h2 : delay + p + k * p = delay + (k + 1) * p := by
        have : (k + 1) * p = k * p + p := by rw [Nat.succ_mul]
        omega
      have h3 : i + 1 + k = i + (k + 1) := by omega
      rw [h1, h2, h3]
      simp [List.getD]

end MatrixMon

namespace MatrixMon

/-! Characterization of the createDroplet walk. -/

theorem createDropletGo_fst_length (alphabet : List String) (colIdx : Nat)
    (clearScreen : Bool) (charList : List (Option String)) (draws : Nat → Nat)
    (p : Nat) :
    ∀ (cells : List CellUpdate) (i delay : Nat) (prev : Option String) (s : Sched),
      (createDropletGo alphabet colIdx clearScreen charList draws p
        cells i delay prev s).1.length = cells.length := by
  intro cells
  induction cells with
  | nil => intro i delay prev s; rfl
  | cons c rest ih =>
    intro i delay prev s
    simp only [createDropletGo, List.length_cons]
    rw [ih]

theorem createDropletGo_nextId (alphabet : List String) (colIdx : Nat)
    (clearScreen : Bool) (charList : List (Option String)) (draws : Nat → Nat)
    (p : Nat) :
    ∀ (cells : List CellUpdate) (i delay : Nat) (prev : Option String) (s : Sched),
      (createDropletGo alphabet colIdx clearScreen charList draws p
        cells i delay prev s).2.nextId = s.nextId + cells.length := by
  intro cells
  induction cells with
  | nil => intro i delay prev s; rfl
  | cons c rest ih =>
    intro i delay prev s
    simp only [createDropletGo, List.length_cons]
    rw [ih]
    simp [Sched.nextId_schedule, Sched.nextId_cancel]
    omega

theorem createDropletGo_get (alphabet : List String) (colIdx : Nat)
    (clearScreen : Bool) (charList : List (Option String)) (draws : Nat → Nat)
    (p : Nat) :
    ∀ (cells : List CellUpdate) (i delay : Nat) (prev : Option String) (s : Sched)
      (k : Nat),
      (createDropletGo alphabet colIdx clearScreen charList draws p
        cells i delay prev s).1.get? k =
        ((dropletChars alphabet clearScreen charList draws cells.length i prev).get? k).map
          (fun ch => ({ timer := some (s.nextId + k), delay := some (delay + k * p),
                        progression := some p, nextChar := some ch,
                        isUpdated := false } : CellUpdate)) := by
  intro cells
  induction cells with
  | nil => intro i delay prev s k; simp [createDropletGo, dropletChars]
  | cons c rest ih =>
    intro i delay prev s k
    cases k with
    | zero =>
      simp [createDropletGo, dropletChars, Sched.fst_schedule, Sched.nextId_cancel]
    | succ k =>
      simp only [createDropletGo, dropletChars, List.length_cons, List.get?_cons_succ]
      rw [ih]
      have hnid : ((Sched.cancel s c.timer).schedule delay
          (Action.updateCell colIdx i
            (some (dropletChar alphabet clearScreen charList draws i prev)))).2.nextId
          = s.nextId + 1 := by
        rw [Sched.nextId_schedule, Sched.nextId_cancel]
      rw [hnid]
      cases hx : (dropletChars alphabet clearScreen charList draws rest.length (i + 1)
          (some (dropletChar alphabet clearScreen charList draws i prev))).get? k with
      | none => simp
      | some ch =>
        simp only [Option.map_some']
        have h1 : s.nextId + 1 + k = s.nextId + (k + 1) := by omega
        have h2 : delay + p + k * p = delay + (k + 1) * p := by
          have : (k + 1) * p = k * p + p := by rw [Nat.succ_mul]
          omega
        rw [h1, h2]

theorem createDropletGo_tasks (alphabet : List String) (colIdx : Nat)
    (clearScreen : Bool) (charList : List (Option String)) (draws : Nat → Nat)
    (p : Nat) :
    ∀ (cells : List CellUpdate) (i delay : Nat) (prev : Option String) (s : Sched),
      (∀ c ∈ cells, ∀ t, c.timer = some t → t < s.nextId ∧ s.pending (some t) = false) →
      (createDropletGo alphabet colIdx clearScreen charList draws p
        cells i delay prev s).2.tasks =
        s.tasks ++ dropletTaskList colIdx p
          (dropletChars alphabet clearScreen charList draws cells.length i prev)
          s.nextId delay i := by
  intro cells
  induction cells with
  | nil => intro i delay prev s hfresh; simp [createDropletGo, dropletChars, dropletTaskList]
  | cons c rest ih =>
    intro i delay prev s hfresh
    have hcfresh : Sched.cancel s c.timer = s := by
      apply Sched.cancel_eq_self
      cases ht : c.timer with
      | none => rfl
      | some t => exact ((hfresh c (by simp) t ht).2)
    simp only [createDropletGo, dropletChars, List.length_cons, dropletTaskList]
    rw [hcfresh]
    rw [ih]
    · simp only [Sched.schedule, Sched.fst_schedule]
      rw [List.append_assoc]
      rfl
    · intro c2 hc2 t ht
      have h0 := hfresh c2 (by simp [hc2]) t ht
      constructor
      · rw [Sched.nextId_schedule]
        omega
      · rw [Sched.pending_schedule_lt]
        · exact h0.2
        · exact h0.1

theorem createDropletGo_pending_false (alphabet : List String) (colIdx : Nat)
    (clearScreen : Bool) (charList : List (Option String)) (draws : Nat → Nat)
    (p : Nat) :
    ∀ (cells : List CellUpdate) (i delay : Nat) (prev : Option String) (s : Sched)
      (t : Nat), t < s.nextId → s.pending (some t) = false →
      (createDropletGo alphabet colIdx clearScreen charList draws p
        cells i delay prev s).2.pending (some t) = false := by
  intro cells
  induction cells with
  | nil => intro i delay prev s t hlt hp; exact hp
  | cons c rest ih =>
    intro i delay prev s t hlt hp
    simp only [createDropletGo]
    apply ih
    · rw [Sched.nextId_schedule, Sched.nextId_cancel]
      omega
    · rw [Sched.pending_schedule_lt]
      · exact Sched.pending_cancel_false s c.timer t hp
      · rw [Sched.nextId_cancel]
        exact hlt

theorem createDropletGo_pending_none (alphabet : List String) (colIdx : Nat)
    (clearScreen : Bool) (charList : List (Option String)) (draws : Nat → Nat)
    (p : Nat) (cells : List CellUpdate) (i delay : Nat) (prev : Option String)
    (s : Sched) :
    (createDropletGo alphabet colIdx clearScreen charList draws p
      cells i delay prev s).2.pending none = false := rfl

theorem createDropletGo_cancels (alphabet : List String) (colIdx : Nat)
    (clearScreen : Bool) (charList : List (Option String)) (draws : Nat → Nat)
    (p : Nat) :
    ∀ (cells : List CellUpdate) (i delay : Nat) (prev : Option String) (s : Sched),
      (∀ c ∈ cells, ∀ t, c.timer = some t → t < s.nextId) →
      ∀ c ∈ cells,
        (createDropletGo alphabet colIdx clearScreen charList draws p
          cells i delay prev s).2.pending c.timer = false := by
  intro cells
  induction cells with
  | nil => intro i delay prev s hb c hc; simp at hc
  | cons c0 rest ih =>
    intro i delay prev s hb c hc
    rcases List.mem_cons.mp hc with hc | hc
    · subst hc
      cases ht : c.timer with
      | none => exact createDropletGo_pending_none _ _ _ _ _ _ _ _ _ _ _
      | some t =>
        have hlt : t < s.nextId := hb c (by simp) t ht
        simp only [createDropletGo]
        rw [ht]
        apply createDropletGo_pending_false
        · rw [Sched.nextId_schedule, Sched.nextId_cancel]
          omega
        · rw [Sched.pending_schedule_lt]
          · exact Sched.pending_cancel_self s t
          · rw [Sched.nextId_cancel]
            exact hlt
    · apply ih
      · intro c2 hc2 t2 ht2
        have := hb c2 (by simp [hc2]) t2 ht2
        rw [Sched.nextId_schedule, Sched.nextId_cancel]
        omega
      · exact hc

end MatrixMon

namespace MatrixMon

/-! Interpretation lemmas for the droplet glyph sequence. -/

theorem dropletChar_clear (alphabet : List String) (charList : List (Option String))
    (draws : Nat → Nat) (i : Nat) (prev : Option String) :
    dropletChar alphabet true charList draws i prev = "" := rfl

theorem dropletChar_present (alphabet : List String) (charList : List (Option String))
    (draws : Nat → Nat) (i : Nat) (prev : Option String) (g : String)
    (h : charList.getD i none = some g) :
    dropletChar alphabet false charList draws i prev = g := by
  rw [List.getD_eq_getElem?_getD] at h
  simp [dropletChar, h]

theorem dropletChar_absent (alphabet : List String) (charList : List (Option String))
    (draws : Nat → Nat) (i : Nat) (prev : Option String)
    (h : charList.getD i none = none) :
    dropletChar alphabet false charList draws i prev = getRandomChar alphabet prev (draws i) := by
  rw [List.getD_eq_getElem?_getD] at h
  simp [dropletChar, h]

theorem dropletChars_get_zero (alphabet : List String) (clearScreen : Bool)
    (charList : List (Option String)) (draws : Nat → Nat) :
    ∀ (n : Nat) (i : Nat) (prev : Option String), 0 < n →
      (dropletChars alphabet clearScreen charList draws n i prev).get? 0 =
        some (dropletChar alphabet clearScreen charList draws i prev) := by
  intro n i prev hn
  cases n with
  | zero => omega
  | succ n => simp [dropletChars]

theorem dropletChars_entry (alphabet : List String) (clearScreen : Bool)
    (charList : List (Option String)) (draws : Nat → Nat) :
    ∀ (n i : Nat) (prev : Option String) (k : Nat), k < n →
      ∃ pc, (dropletChars alphabet clearScreen charList draws n i prev).get? k =
        some (dropletChar alphabet clearScreen charList draws (i + k) pc) := by
  intro n
  induction n with
  | zero => intro i prev k hk; omega
  | succ n ih =>
    intro i prev k hk
    cases k with
    | zero =>
      exact ⟨prev, by simp [dropletChars]⟩
    | succ k =>
      obtain ⟨pc, hpc⟩ := ih (i + 1)
        (some (dropletChar alphabet clearScreen charList draws i prev)) k (by omega)
      refine ⟨pc, ?_⟩
      simp only [dropletChars, List.get?_cons_succ]
      rw [hpc]
      have harg : i + 1 + k = i + (k + 1) := by omega
      rw [harg]

theorem dropletChars_chain (alphabet : List String) (clearScreen : Bool)
    (charList : List (Option String)) (draws : Nat → Nat) :
    ∀ (n i : Nat) (prev : Option String) (k : Nat) (ck c2 : String),
      (dropletChars alphabet clearScreen charList draws n i prev).get? k = some ck →
      (dropletChars alphabet clearScreen charList draws n i prev).get? (k + 1) = some c2 →
      c2 = dropletChar alphabet clearScreen charList draws (i + k + 1) (some ck) := by
  intro n
  induction n with
  | zero => intro i prev k ck c2 h1 h2; simp [dropletChars] at h1
  | succ n ih =>
    intro i prev k ck c2 h1 h2
    cases k with
    | zero =>
      simp only [dropletChars, List.get?_cons_zero] at h1
      injection h1 with h1
      simp only [dropletChars, List.get?_cons_succ] at h2
      cases n with
      | zero => simp [dropletChars] at h2
      | succ m =>
        rw [dropletChars_get_zero alphabet clearScreen charList draws (m + 1) (i + 1) _
          (by omega)] at h2
        injection h2 with h2
        rw [← h2, ← h1]
    | succ k =>
      simp only [dropletChars, List.get?_cons_succ] at h1 h2
      have hres := ih (i + 1)
        (some (dropletChar alphabet clearScreen charList draws i prev)) k ck c2 h1 h2
      have harg : i + 1 + k + 1 = i + (k + 1) + 1 := by omega
      rw [harg] at hres
      exact hres

end MatrixMon

namespace MatrixMon

/-! Claims C1 and C9: the droplet cascade generator. -/

/-- Claim C1: a single non-clearing createDroplet call on the top cell of
a column with R cells, with 0 < minCharProgression < maxCharProgression,
picks one progression p with minCharProgression <= p < maxCharProgression,
walks the whole column, and schedules exactly R update tasks, one per cell
in row order, the task of row k carrying delay k * p, so the delays are
0, p, 2p, ... and strictly increase down the column. -/
theorem createDroplet_schedule_spec (opts : Options) (colIdx : Nat)
    (charList : List (Option String)) (cells : List CellUpdate)
    (pdraw : Nat) (draws : Nat → Nat) (n0 : Nat)
    (hR : 1 ≤ cells.length)
    (hmin : 0 < opts.minCharProgression)
    (hlt : opts.minCharProgression < opts.maxCharProgression)
    (htimers : ∀ c ∈ cells, c.timer.all (fun t => decide (t < n0)) = true) :
    ∃ p, opts.minCharProgression ≤ p ∧ p < opts.maxCharProgression ∧
      (createDroplet opts colIdx { clearScreen := false, charList := charList }
        pdraw draws cells ⟨n0, []⟩).2.tasks.length = cells.length ∧
      (∀ k, k < cells.length → ∃ ch,
        (createDroplet opts colIdx { clearScreen := false, charList := charList }
          pdraw draws cells ⟨n0, []⟩).2.tasks.get? k =
            some ⟨n0 + k, k * p, Action.updateCell colIdx k (some ch)⟩) ∧
      (∀ j k tj tk, j < k →
        (createDroplet opts colIdx { clearScreen := false, charList := charList }
          pdraw draws cells ⟨n0, []⟩).2.tasks.get? j = some tj →
        (createDroplet opts colIdx { clearScreen := false, charList := charList }
          pdraw draws cells ⟨n0, []⟩).2.tasks.get? k = some tk →
        tj.delay < tk.delay) := by
  have hfresh : ∀ c ∈ cells, ∀ t, c.timer = some t →
      t < (⟨n0, []⟩ : Sched).nextId ∧ (⟨n0, []⟩ : Sched).pending (some t) = false := by
    intro c hc t ht
    exact ⟨timer_all_lt (htimers c hc) ht, rfl⟩
  have htasks : (createDroplet opts colIdx { clearScreen := false, charList := charList }
      pdraw draws cells ⟨n0, []⟩).2.tasks =
      dropletTaskList colIdx
        (randomInt opts.minCharProgression opts.maxCharProgression pdraw)
        (dropletChars opts.alphabet false charList draws cells.length 0 none) n0 0 0 := by
    have := createDropletGo_tasks opts.alphabet colIdx false charList draws
      (randomInt opts.minCharProgression opts.maxCharProgression pdraw)
      cells 0 0 none ⟨n0, []⟩ hfresh
    simpa using this
  refine ⟨randomInt opts.minCharProgression opts.maxCharProgression pdraw, ?_, ?_, ?_, ?_, ?_⟩
  · exact Nat.le_add_right _ _
  · have hmod : pdraw % (opts.maxCharProgression - opts.minCharProgression) <
        opts.maxCharProgression - opts.minCharProgression := Nat.mod_lt _ (by omega)
    unfold randomInt
    omega
  · rw [htasks, dropletTaskList_length, dropletChars_length]
  · intro k hk
    refine ⟨(dropletChars opts.alphabet false charList draws cells.length 0 none).getD k "", ?_⟩
    rw [htasks, dropletTaskList_get]
    · simp
    · rw [dropletChars_length]; exact hk
  · intro j k tj tk hjk hgj hgk
    have hklen : k < (createDroplet opts colIdx { clearScreen := false, charList := charList }
        pdraw draws cells ⟨n0, []⟩).2.tasks.length := by
      rcases List.get?_eq_some.mp hgk with ⟨hlt2, _⟩
      exact hlt2
    have hklen2 : k < cells.length := by
      rw [htasks, dropletTaskList_length, dropletChars_length] at hklen
      exact hklen
    have hchars : (dropletChars opts.alphabet false charList draws cells.length 0 none).length
        = cells.length := dropletChars_length _ _ _ _ _ _ _
    have hj2 : (createDroplet opts colIdx { clearScreen := false, charList := charList }
        pdraw draws cells ⟨n0, []⟩).2.tasks.get? j =
        some ⟨n0 + j, 0 + j * randomInt opts.minCharProgression opts.maxCharProgression pdraw,
          Action.updateCell colIdx (0 + j)
            (some ((dropletChars opts.alphabet false charList draws cells.length 0 none).getD j ""))⟩ := by
      rw [htasks, dropletTaskList_get]
      rw [hchars]; omega
    have hk2 : (createDroplet opts colIdx { clearScreen := false, charList := charList }
        pdraw draws cells ⟨n0, []⟩).2.tasks.get? k =
        some ⟨n0 + k, 0 + k * randomInt opts.minCharProgression opts.maxCharProgression pdraw,
          Action.updateCell colIdx (0 + k)
            (some ((dropletChars opts.alphabet false charList draws cells.length 0 none).getD k ""))⟩ := by
      rw [htasks, dropletTaskList_get]
      rw [hchars]; exact hklen2
    rw [hgj] at hj2
    rw [hgk] at hk2
    injection hj2 with hj2
    injection hk2 with hk2
    have hdj : tj.delay = j * randomInt opts.minCharProgression opts.maxCharProgression pdraw := by
      rw [hj2]
      simp
    have hdk : tk.delay = k * randomInt opts.minCharProgression opts.maxCharProgression pdraw := by
      rw [hk2]
      simp
    rw [hdj, hdk]
    have hp0 : 0 < randomInt opts.minCharProgression opts.maxCharProgression pdraw := by
      unfold randomInt
      omega
    exact mul_lt_mul_of_pos_right hjk hp0

end MatrixMon

namespace MatrixMon

/-- Claim C9: within one createDroplet pass, the glyph scheduled for every
cell is the empty string when clearing, else the charList entry at the row
when present (an explicit empty string counts as present), else a fresh
sample excluding the immediately preceding glyph of this droplet; each
cell gets its previously pending update cancelled and its UpdateState
overwritten with the new handle, delay, progression and glyph, with the
has-displayed flag reset to false. -/
theorem createDroplet_cell_state_spec (opts : Options) (colIdx : Nat)
    (clearScreen : Bool) (charList : List (Option String))
    (pdraw : Nat) (draws : Nat → Nat) (cells : List CellUpdate) (s : Sched)
    (htimers : ∀ c ∈ cells, c.timer.all (fun t => decide (t < s.nextId)) = true) :
    (createDroplet opts colIdx { clearScreen := clearScreen, charList := charList }
      pdraw draws cells s).1.length = cells.length
    ∧ (∀ k ck,
        (dropletChars opts.alphabet clearScreen charList draws cells.length 0 none).get? k
          = some ck →
        (createDroplet opts colIdx { clearScreen := clearScreen, charList := charList }
          pdraw draws cells s).1.get? k =
          some { timer := some (s.nextId + k),
                 delay := some (k * randomInt opts.minCharProgression
                   opts.maxCharProgression pdraw),
                 progression := some (randomInt opts.minCharProgression
                   opts.maxCharProgression pdraw),
                 nextChar := some ck, isUpdated := false })
    ∧ (∀ c ∈ cells,
        (createDroplet opts colIdx { clearScreen := clearScreen, charList := charList }
          pdraw draws cells s).2.pending c.timer = false)
    ∧ (clearScreen = true → ∀ k, k < cells.length →
        (dropletChars opts.alphabet clearScreen charList draws cells.length 0 none).get? k
          = some "")
    ∧ (clearScreen = false → ∀ k g, k < cells.length → charList.getD k none = some g →
        (dropletChars opts.alphabet clearScreen charList draws cells.length 0 none).get? k
          = some g)
    ∧ (clearScreen = false → 0 < cells.length → charList.getD 0 none = none →
        (dropletChars opts.alphabet clearScreen charList draws cells.length 0 none).get? 0
          = some (getRandomChar opts.alphabet none (draws 0)))
    ∧ (clearScreen = false → ∀ k ck c2,
        (dropletChars opts.alphabet clearScreen charList draws cells.length 0 none).get? k
          = some ck →
        (dropletChars opts.alphabet clearScreen charList draws cells.length 0 none).get? (k + 1)
          = some c2 →
        charList.getD (k + 1) none = none →
        c2 = getRandomChar opts.alphabet (some ck) (draws (k + 1))) := by
  refine ⟨?_, ?_, ?_, ?_, ?_, ?_, ?_⟩
  · exact createDropletGo_fst_length opts.alphabet colIdx clearScreen charList draws
      (randomInt opts.minCharProgression opts.maxCharProgression pdraw) cells 0 0 none s
  · intro k ck hck
    have hg := createDropletGo_get opts.alphabet colIdx clearScreen charList draws
      (randomInt opts.minCharProgression opts.maxCharProgression pdraw) cells 0 0 none s k
    rw [hck] at hg
    simpa using hg
  · intro c hc
    exact createDropletGo_cancels opts.alphabet colIdx clearScreen charList draws
      (randomInt opts.minCharProgression opts.maxCharProgression pdraw) cells 0 0 none s
      (fun c2 hc2 t ht => timer_all_lt (htimers c2 hc2) ht) c hc
  · intro hcl k hk
    subst hcl
    obtain ⟨pc, hpc⟩ := dropletChars_entry opts.alphabet true charList draws
      cells.length 0 none k hk
    rw [hpc, dropletChar_clear]
  · intro hcl k g hk hg
    subst hcl
    obtain ⟨pc, hpc⟩ := dropletChars_entry opts.alphabet false charList draws
      cells.length 0 none k hk
    rw [Nat.zero_add] at hpc
    rw [hpc, dropletChar_present opts.alphabet charList draws k pc g hg]
  · intro hcl hlen h0
    subst hcl
    rw [dropletChars_get_zero opts.alphabet false charList draws cells.length 0 none hlen]
    rw [dropletChar_absent opts.alphabet charList draws 0 none h0]
  · intro hcl k ck c2 hk hk1 habs
    subst hcl
    have := dropletChars_chain opts.alphabet false charList draws cells.length 0 none
      k ck c2 hk hk1
    rw [Nat.zero_add] at this
    rw [this, dropletChar_absent opts.alphabet charList draws (k + 1) (some ck) habs]

/-- Concrete configuration used by the witnesses: a two glyph alphabet,
all timing values at the source defaults. -/
def sampleOptions : Options := { alphabet := ["a", "b"] }

/-- Concrete two cell column used by the witnesses: a fresh cell and one
holding a stale timer handle 3. -/
def sampleCells : List CellUpdate := [{}, { timer := some 3 }]

/-- Witness for claim C1 at a concrete column, configuration and draws. -/
theorem createDroplet_schedule_spec_witness :
    1 ≤ sampleCells.length
    ∧ 0 < sampleOptions.minCharProgression
    ∧ sampleOptions.minCharProgression < sampleOptions.maxCharProgression
    ∧ (∀ c ∈ sampleCells, c.timer.all (fun t => decide (t < 7)) = true)
    ∧ (createDroplet sampleOptions 0 { clearScreen := false, charList := [] } 0 (fun _ => 0)
        sampleCells ⟨7, []⟩).2.tasks.length = sampleCells.length := by
  refine ⟨by decide, by decide, by decide, by decide, ?_⟩
  obtain ⟨p, _, _, hlen, _, _⟩ := createDroplet_schedule_spec sampleOptions 0 [] sampleCells
    0 (fun _ => 0) 7 (by decide) (by decide) (by decide) (by decide)
  exact hlen

/-- Witness for claim C9 at a concrete column, scheduler state and draws:
the stale pending update task under handle 3 is cancelled. -/
theorem createDroplet_cell_state_spec_witness :
    (∀ c ∈ sampleCells, c.timer.all (fun t => decide (t < (7 : Nat))) = true)
    ∧ (createDroplet sampleOptions 0 { clearScreen := false, charList := [] } 0 (fun _ => 0)
        sampleCells ⟨7, [⟨3, 50, Action.updateCell 0 1 (some "a")⟩]⟩).2.pending (some 3)
      = false := by
  refine ⟨by decide, ?_⟩
  have h := (createDroplet_cell_state_spec sampleOptions 0 false [] 0 (fun _ => 0)
    sampleCells ⟨7, [⟨3, 50, Action.updateCell 0 1 (some "a")⟩]⟩ (by decide)).2.2.1
  have h2 := h ({ timer := some 3 } : CellUpdate) (by decide)
  simpa using h2

end MatrixMon

namespace MatrixMon

/-! The Image Compositor (the private draw method). -/

/-- A row of the draw image argument as passed by the caller: either a JS
array of entries (strings or null, null modelled as none) or a value that
is not an array, such as a string. -/
inductive ImgRow where
  | cells (entries : List (Option String))
  | notArray (value : String)
deriving DecidableEq, Repr

/-- The image argument to draw: a string or a JS array of rows. -/
inductive ImageArg where
  | str (text : String)
  | arr (rows : List ImgRow)
deriving DecidableEq, Repr

/-- Embeds the validation at the top of the draw method (part_000 lines
590-599): a non-array non-string throws, and an array whose first element
is not itself an array throws; only the first element is inspected. -/
def drawThrows : ImageArg → Bool
  | .str _ => false
  | .arr rows =>
    match rows.head? with
    | some (.cells _) => false
    | _ => true

/-- The claim-side validity predicate of C7, following the words of the
spec: the image is a string or a matrix-of-rows, an array whose rows are
all themselves arrays. -/
def specMatrixOfRows : ImageArg → Bool
  | .str _ => false
  | .arr rows => rows.all (fun r => match r with | .cells _ => true | .notArray _ => false)

/-- Whether the image argument is a string. -/
def isStrImage : ImageArg → Bool
  | .str _ => true
  | .arr _ => false

/-- Whether the image argument is an array whose first element is an
array, which is all the source validation inspects. -/
def firstRowIsArr : ImageArg → Bool
  | .str _ => false
  | .arr rows =>
    match rows.head? with
    | some (.cells _) => true
    | _ => false

/-- The JS fallback chain char || paddingChar used while composing: a
missing, null or empty entry falls back to the padding glyph. -/
def jsOr (v : Option String) (fallback : String) : String :=
  match v with
  | some s => if s = "" then fallback else s
  | none => fallback

/-- The bounding width of the image: Math.max over the row lengths (the
draw validation guarantees at least one row). -/
def imageWidth (rows : List (List (Option String))) : Nat :=
  rows.foldr (fun r m => max r.length m) 0

/-- Embeds the composition loop of the draw method (part_000 lines
602-641): marginTop rows of null, paddingTop rows of paddingChar framed by
null margins, the image rows with left and right padding and margins and
with short rows completed by paddingChar, then the bottom padding and
margin rows.  A null entry means absent (the column stays under normal
random control); paddingChar entries force a fixed glyph. -/
def buildImageData (rows : List (List (Option String)))
    (marginTop paddingTop marginBottom paddingBottom : Nat)
    (marginRight paddingRight marginLeft paddingLeft : Nat)
    (paddingChar : String) : List (List (Option String)) :=
  let w := imageWidth rows
  let totalWidth := marginLeft + paddingLeft + w + paddingRight + marginRight
  let marginRow : List (Option String) := List.replicate totalWidth none
  let padRow : List (Option String) :=
    List.replicate marginLeft none
      ++ List.replicate (paddingLeft + w + paddingRight) (some paddingChar)
      ++ List.replicate marginRight none
  let imgRow : List (Option String) → List (Option String) := fun r =>
    List.replicate marginLeft none
      ++ List.replicate paddingLeft (some paddingChar)
      ++ (List.range w).map (fun j => some (jsOr (r.getD j none) paddingChar))
      ++ List.replicate paddingRight (some paddingChar)
      ++ List.replicate marginRight none
  List.replicate marginTop marginRow
    ++ List.replicate paddingTop padRow
    ++ rows.map imgRow
    ++ List.replicate paddingBottom padRow
    ++ List.replicate marginBottom marginRow

end MatrixMon

namespace MatrixMon

theorem get?_replicate_lt {α : Type} (a : α) :
    ∀ (n k : Nat), k < n → (List.replicate n a).get? k = some a := by
  intro n
  induction n with
  | zero => intro k hk; omega
  | succ n ih =>
    intro k hk
    cases k with
    | zero => rfl
    | succ k =>
      simp only [List.replicate_succ, List.get?_cons_succ]
      exact ih k (by omega)

/-- Claim C6: the composed table has marginTop+paddingTop+height+
paddingBottom+marginBottom rows, every row has marginLeft+paddingLeft+
imageWidth+paddingRight+marginRight entries, margin rows hold the absent
marker everywhere, padding rows hold paddingChar framed by absent margins,
image rows embed the image glyphs with paddings and margins, and a missing
glyph inside the bounding box is filled with paddingChar. -/
theorem draw_composition_spec (rows : List (List (Option String)))
    (mT pT mB pB mR pR mL pL : Nat) (pc : String)
    (hrows : rows ≠ []) :
    (buildImageData rows mT pT mB pB mR pR mL pL pc).length
        = mT + pT + rows.length + pB + mB
    ∧ (∀ row ∈ buildImageData rows mT pT mB pB mR pR mL pL pc,
        row.length = mL + pL + imageWidth rows + pR + mR)
    ∧ (∀ i, i < mT →
        (buildImageData rows mT pT mB pB mR pR mL pL pc).get? i =
          some (List.replicate (mL + pL + imageWidth rows + pR + mR) none))
    ∧ (∀ i, i < pT →
        (buildImageData rows mT pT mB pB mR pR mL pL pc).get? (mT + i) =
          some (List.replicate mL none
            ++ (List.replicate (pL + imageWidth rows + pR) (some pc)
            ++ List.replicate mR none)))
    ∧ (∀ i row, rows.get? i = some row →
        (buildImageData rows mT pT mB pB mR pR mL pL pc).get? (mT + pT + i) =
          some (List.replicate mL none ++ (List.replicate pL (some pc)
            ++ ((List.range (imageWidth rows)).map
                (fun j => some (jsOr (row.getD j none) pc))
            ++ (List.replicate pR (some pc) ++ List.replicate mR none)))))
    ∧ (∀ i, i < pB →
        (buildImageData rows mT pT mB pB mR pR mL pL pc).get? (mT + pT + rows.length + i) =
          some (List.replicate mL none
            ++ (List.replicate (pL + imageWidth rows + pR) (some pc)
            ++ List.replicate mR none)))
    ∧ (∀ i, i < mB →
        (buildImageData rows mT pT mB pB mR pR mL pL pc).get?
            (mT + pT + rows.length + pB + i) =
          some (List.replicate (mL + pL + imageWidth rows + pR + mR) none))
    ∧ (∀ i row j, rows.get? i = some row → j < imageWidth rows →
        row.getD j none = none →
        ((buildImageData rows mT pT mB pB mR pR mL pL pc).get? (mT + pT + i)).bind
            (fun r => r.get? (mL + pL + j)) = some (some pc)) := by
  have hbid : buildImageData rows mT pT mB pB mR pR mL pL pc =
      List.replicate mT (List.replicate (mL + pL + imageWidth rows + pR + mR) none)
      ++ (List.replicate pT (List.replicate mL none
           ++ (List.replicate (pL + imageWidth rows + pR) (some pc)
           ++ List.replicate mR none))
      ++ (rows.map (fun r =>
           List.replicate mL none ++ (List.replicate pL (some pc)
           ++ ((List.range (imageWidth rows)).map
               (fun j => some (jsOr (r.getD j none) pc))
           ++ (List.replicate pR (some pc) ++ List.replicate mR none))))
      ++ (List.replicate pB (List.replicate mL none
           ++ (List.replicate (pL + imageWidth rows + pR) (some pc)
           ++ List.replicate mR none))
      ++ List.replicate mB
          (List.replicate (mL + pL + imageWidth rows + pR + mR) none)))) := by
    simp only [buildImageData, List.append_assoc]
  have h3 : ∀ i row, rows.get? i = some row →
      (buildImageData rows mT pT mB pB mR pR mL pL pc).get? (mT + pT + i) =
        some (List.replicate mL none ++ (List.replicate pL (some pc)
          ++ ((List.range (imageWidth rows)).map
              (fun j => some (jsOr (row.getD j none) pc))
          ++ (List.replicate pR (some pc) ++ List.replicate mR none)))) := by
    intro i row hrow
    rw [hbid]
    rw [List.get?_append_right (by simpa using (by omega : mT ≤ mT + pT + i))]
    simp only [List.length_replicate]
    have hidx : mT + pT + i - mT = pT + i := by omega
    rw [hidx]
    rw [List.get?_append_right (by simpa using (by omega : pT ≤ pT + i))]
    simp only [List.length_replicate]
    have hidx2 : pT + i - pT = i := by omega
    rw [hidx2]
    have hlt : i < rows.length := by
      rcases List.get?_eq_some.mp hrow with ⟨h, _⟩
      exact h
    rw [List.get?_append (by simpa using hlt)]
    rw [List.get?_map, hrow]
    rfl
  refine ⟨?_, ?_, ?_, ?_, h3, ?_, ?_, ?_⟩
  · rw [hbid]
    simp only [List.length_append, List.length_replicate, List.length_map]
    omega
  · intro row hrow
    rw [hbid] at hrow
    simp only [List.mem_append, List.mem_replicate, List.mem_map] at hrow
    rcases hrow with ⟨_, rfl⟩ | ⟨_, rfl⟩ | ⟨r, hr, rfl⟩ | ⟨_, rfl⟩ | ⟨_, rfl⟩ <;>
      simp only [List.length_append, List.length_replicate, List.length_map,
        List.length_range] <;> omega
  · intro i hi
    rw [hbid]
    rw [List.get?_append (by simpa using hi)]
    exact get?_replicate_lt _ mT i hi
  · intro i hi
    rw [hbid]
    rw [List.get?_append_right (by simpa using Nat.le_add_right mT i)]
    simp only [List.length_replicate]
    have hidx : mT + i - mT = i := by omega
    rw [hidx]
    rw [List.get?_append (by simpa using hi)]
    exact get?_replicate_lt _ pT i hi
  · intro i hi
    rw [hbid]
    rw [List.get?_append_right (by simpa using (by omega : mT ≤ mT + pT + rows.length + i))]
    simp only [List.length_replicate]
    have hidx : mT + pT + rows.length + i - mT = pT + rows.length + i := by omega
    rw [hidx]
    rw [List.get?_append_right (by simpa using (by omega : pT ≤ pT + rows.length + i))]
    simp only [List.length_replicate]
    have hidx2 : pT + rows.length + i - pT = rows.length + i := by omega
    rw [hidx2]
    rw [List.get?_append_right (by simpa using Nat.le_add_right rows.length i)]
    simp only [List.length_map]
    have hidx3 : rows.length + i - rows.length = i := by omega
    rw [hidx3]
    rw [List.get?_append (by simpa using hi)]
    exact get?_replicate_lt _ pB i hi
  · intro i hi
    rw [hbid]
    rw [List.get?_append_right
      (by simpa using (by omega : mT ≤ mT + pT + rows.length + pB + i))]
    simp only [List.length_replicate]
    have hidx : mT + pT + rows.length + pB + i - mT = pT + rows.length + pB + i := by omega
    rw [hidx]
    rw [List.get?_append_right (by simpa using (by omega : pT ≤ pT + rows.length + pB + i))]
    simp only [List.length_replicate]
    have hidx2 : pT + rows.length + pB + i - pT = rows.length + pB + i := by omega
    rw [hidx2]
    rw [List.get?_append_right
      (by simpa using (by omega : rows.length ≤ rows.length + pB + i))]
    simp only [List.length_map]
    have hidx3 : rows.length + pB + i - rows.length = pB + i := by omega
    rw [hidx3]
    rw [List.get?_append_right (by simpa using Nat.le_add_right pB i)]
    simp only [List.length_replicate]
    have hidx4 : pB + i - pB = i := by omega
    rw [hidx4]
    exact get?_replicate_lt _ mB i hi
  · intro i row j hrow hj hmiss
    rw [h3 i row hrow]
    rw [Option.some_bind]
    have hidx0 : mL + pL + j = mL + (pL + j) := by omega
    rw [hidx0]
    rw [List.get?_append_right (by simpa using Nat.le_add_right mL (pL + j))]
    simp only [List.length_replicate]
    have hidx : mL + (pL + j) - mL = pL + j := by omega
    rw [hidx]
    rw [List.get?_append_right (by simpa using Nat.le_add_right pL j)]
    simp only [List.length_replicate]
    have hidx2 : pL + j - pL = j := by omega
    rw [hidx2]
    rw [List.get?_append (by simpa using hj)]
    rw [List.get?_map, List.get?_range hj]
    rw [List.getD_eq_getElem?_getD] at hmiss
    simp [jsOr, hmiss]

end MatrixMon

namespace MatrixMon

/-- Concrete 2-row, 3-column image used by the C6 witness. -/
def sampleImage : List (List (Option String)) :=
  [[some "a", some "b", some "c"], [some "d", some "e"]]

/-- Witness for claim C6: the 2-row, 3-column image with all margins and
paddings 1 composes to 6 rows of 7 entries each. -/
theorem draw_composition_spec_witness :
    sampleImage ≠ []
    ∧ (buildImageData sampleImage 1 1 1 1 1 1 1 1 "").length = 6
    ∧ (∀ row ∈ buildImageData sampleImage 1 1 1 1 1 1 1 1 "", row.length = 7) := by
  refine ⟨by decide, ?_, ?_⟩
  · have h := (draw_composition_spec sampleImage 1 1 1 1 1 1 1 1 "" (by decide)).1
    have hl : sampleImage.length = 2 := rfl
    omega
  · intro row hrow
    have h := (draw_composition_spec sampleImage 1 1 1 1 1 1 1 1 "" (by decide)).2.1 row hrow
    have hw : imageWidth sampleImage = 3 := rfl
    omega

/-- Counterexample for claim C7 as stated: the array whose first row is an
array and whose second row is the string bc is not a matrix-of-rows (one
of its rows is not an array), so by the claim draw should raise an error
on it, yet the validation accepts it because only the first element is
inspected. -/
theorem drawThrows_claim_counterexample :
    drawThrows (ImageArg.arr [ImgRow.cells [some "a"], ImgRow.notArray "bc"]) = false
    ∧ specMatrixOfRows (ImageArg.arr [ImgRow.cells [some "a"], ImgRow.notArray "bc"]) = false
    ∧ isStrImage (ImageArg.arr [ImgRow.cells [some "a"], ImgRow.notArray "bc"]) = false :=
  ⟨rfl, rfl, rfl⟩

end MatrixMon

namespace MatrixMon

/-! The Lifecycle Controller state and operations. -/

/-- A recurring interval installed by setInterval: its handle and the
period.  All intervals in the modelled code run the main loop. -/
structure IntervalEntry where
  id : Nat
  period : Nat
deriving DecidableEq, Repr

/-- The recurring-interval registry: setInterval returns a fresh handle,
clearInterval removes the entry with a given handle (no-op otherwise). -/
structure Intervals where
  nextId : Nat
  entries : List IntervalEntry
deriving DecidableEq, Repr

/-- setInterval: allocate a fresh handle and append the entry. -/
def Intervals.setInterval (iv : Intervals) (period : Nat) : Nat × Intervals :=
  (iv.nextId, ⟨iv.nextId + 1, iv.entries ++ [⟨iv.nextId, period⟩]⟩)

/-- clearInterval: drop the entry with the given handle, if any. -/
def Intervals.clear (iv : Intervals) : Option Nat → Intervals
  | none => iv
  | some t => ⟨iv.nextId, iv.entries.filter (fun e => e.id != t)⟩

/-- Whether a handle still has an installed interval. -/
def Intervals.active (iv : Intervals) : Option Nat → Bool
  | none => false
  | some t => iv.entries.any (fun e => e.id == t)

/-- The named timer handles of monitor.timers. -/
structure Timers where
  mainLoopInterval : Option Nat := none
  mainLoopDuration : Option Nat := none
  start : Option Nat := none
  pause : Option Nat := none
  resume : Option Nat := none
  stop : Option Nat := none
deriving DecidableEq, Repr

/-- The monitor state after initialization: the configuration, the grid as
per-column lists of cell update records in row order, the one-shot
scheduler, the interval registry and the named timers. -/
structure MonitorState where
  options : Options
  columns : List (List CellUpdate)
  sched : Sched
  intervals : Intervals
  timers : Timers
deriving DecidableEq, Repr

/-- Options record of monitor.mainLoop.  A charTable row that is not an
array (skipped by the transposition) is modelled as none. -/
structure MainLoopOptions where
  clearScreen : Bool := false
  charTable : List (Option (List (Option String))) := []
  ignoreColumns : List Nat := []
deriving Repr

/-- Column j of the charTableByColumn transposition built by mainLoop:
entry i is row i's glyph at position j when row i is an array long enough,
otherwise a hole, which reads back as undefined and is modelled none (the
JS sparse array only materialises the set entries, but every consumer
reads it through indexing with an undefined default, so the none padding
is observationally identical). -/
def charTableColumn (charTable : List (Option (List (Option String)))) (j : Nat) :
    List (Option String) :=
  charTable.map (fun row => row.bind (fun r => r.getD j none))

/-- The charList handed to the droplet of column j: empty when clearing or
when the table is empty (charTableByColumn stays empty and indexing it
yields undefined, defaulted to an empty list by createDroplet). -/
def mainLoopCharList (clearScreen : Bool)
    (charTable : List (Option (List (Option String)))) (j : Nat) :
    List (Option String) :=
  if clearScreen = false ∧ 0 < charTable.length then charTableColumn charTable j else []

/-- The per-column loop of monitor.mainLoop (part_000 lines 323-331): for
every column not ignored, pick a start delay draw, schedule the droplet
spawn for the top cell, and store the new handle into the top cell's
update record WITHOUT cancelling the previous one. -/
def mainLoopGo (minD maxD : Nat) (clearScreen : Bool)
    (charListAt : Nat → List (Option String)) (ignoreColumns : List Nat)
    (delayDraws : Nat → Nat) :
    List (List CellUpdate) → Nat → Sched → List (List CellUpdate) × Sched
  | [], _i, s => ([], s)
  | col :: rest, i, s =>
    if ignoreColumns.contains i then
      let q := mainLoopGo minD maxD clearScreen charListAt ignoreColumns delayDraws
        rest (i + 1) s
      (col :: q.1, q.2)
    else
      match col with
      | [] =>
        let q := mainLoopGo minD maxD clearScreen charListAt ignoreColumns delayDraws
          rest (i + 1) s
        ([] :: q.1, q.2)
      | top :: lower =>
        let delay := randomInt minD maxD (delayDraws i)
        let pr := s.schedule delay (Action.spawnDroplet i clearScreen (charListAt i))
        let q := mainLoopGo minD maxD clearScreen charListAt ignoreColumns delayDraws
          rest (i + 1) pr.2
        ((({ top with timer := some pr.1 }) :: lower) :: q.1, q.2)

/-- Embeds monitor.mainLoop: transpose the char table and schedule one
droplet spawn per non-ignored column at an independent random delay. -/
def mainLoop (mopts : MainLoopOptions) (delayDraws : Nat → Nat) (s : MonitorState) :
    MonitorState :=
  let q := mainLoopGo s.options.minCharStartDelay s.options.maxCharStartDelay
    mopts.clearScreen (mainLoopCharList mopts.clearScreen mopts.charTable)
    mopts.ignoreColumns delayDraws s.columns 0 s.sched
  { s with columns := q.1, sched := q.2 }

/-- The body of the start timer (startFunction in the source): clear the
recurring cycle, run the main loop once, and install the recurring cycle
at the configured interval. -/
def startBody (delayDraws : Nat → Nat) (s : MonitorState) : MonitorState :=
  let s1 := { s with intervals := s.intervals.clear s.timers.mainLoopInterval }
  let s2 := mainLoop {} delayDraws s1
  let pr := s2.intervals.setInterval s2.options.mainLoopInterval
  { s2 with intervals := pr.2,
            timers := { s2.timers with mainLoopInterval := some pr.1 } }

/-- Options record of the stop method.  The delay can be a negative number
when called from start with a negative duration or delay. -/
structure StopOptions where
  delay : Int := 0
  clearScreen : Bool := false
deriving Repr

/-- Cancellation of every cell's pending update timer, in grid order. -/
def cancelCellTimers (cols : List (List CellUpdate)) (s : Sched) : Sched :=
  (cols.join).foldl (fun sc c => sc.cancel c.timer) s

/-- The clearing droplets scheduled by stop for each column with a top
cell, at an independent draw bounded by 200 and 2000. -/
def scheduleClearDroplets (dropletDraws : Nat → Nat) :
    List (List CellUpdate) → Nat → Sched → Sched
  | [], _i, s => s
  | col :: rest, i, s =>
    match col with
    | [] => scheduleClearDroplets dropletDraws rest (i + 1) s
    | _ :: _ =>
      let d := randomInt 200 2000 (dropletDraws i)
      let pr := s.schedule d (Action.spawnDroplet i true [])
      scheduleClearDroplets dropletDraws rest (i + 1) pr.2

/-- The body of the stop timer (stopFunction in the source): clear the
recurring cycle, cancel every cell's pending update, and when clearing
schedule one clearing droplet per column. -/
def stopBody (clearScreen : Bool) (dropletDraws : Nat → Nat) (s : MonitorState) :
    MonitorState :=
  let s1 := { s with intervals := s.intervals.clear s.timers.mainLoopInterval }
  let s2 := { s1 with sched := cancelCellTimers s1.columns s1.sched }
  if clearScreen then
    { s2 with sched := scheduleClearDroplets dropletDraws s2.columns 0 s2.sched }
  else s2

/-- Embeds the private stop method: cancel the pending stop task, then run
the body now for delay at most 0 or schedule it. -/
def runStop (opts : StopOptions) (dropletDraws : Nat → Nat) (s : MonitorState) :
    MonitorState :=
  let s1 := { s with sched := s.sched.cancel s.timers.stop }
  if opts.delay > 0 then
    let pr := s1.sched.schedule opts.delay.toNat (Action.stopBody opts.clearScreen)
    { s1 with sched := pr.2, timers := { s1.timers with stop := some pr.1 } }
  else stopBody opts.clearScreen dropletDraws s1

/-- Options record of the start method: both fields optional, JS truthy
semantics (a zero is falsy and falls back to the configured value). -/
structure StartOptions where
  delay : Option Int := none
  duration : Option Int := none
deriving Repr

/-- Embeds the private start method (part_000 lines 419-451): truthy
option fields override the configured initialDelay and mainLoopDuration,
the pending start task is cancelled, the body runs now when the effective
delay is not positive and is scheduled otherwise, and a numeric effective
duration schedules a stop with delay duration + initialDelay. -/
def runStart (opts : StartOptions) (delayDraws dropletDraws : Nat → Nat)
    (s : MonitorState) : MonitorState :=
  let initialDelay : Int :=
    if numTruthy opts.delay then opts.delay.getD 0 else s.options.initialDelay
  let mainLoopDuration : Option Int :=
    if numTruthy opts.duration then opts.duration else s.options.mainLoopDuration
  let s1 := { s with sched := s.sched.cancel s.timers.start }
  let s2 :=
    if initialDelay > 0 then
      let pr := s1.sched.schedule initialDelay.toNat Action.startBody
      { s1 with sched := pr.2, timers := { s1.timers with start := some pr.1 } }
    else startBody delayDraws s1
  match mainLoopDuration with
  | some d => runStop { delay := d + initialDelay, clearScreen := false } dropletDraws s2
  | none => s2

/-- Options record of the pause method with the source defaults. -/
structure PauseOptions where
  delay : Nat := 0
  onlyTopCells : Bool := false
  allAtOnce : Bool := false
  minPauseDelay : Nat := 0
  maxPauseDelay : Nat := 1000
deriving Repr

/-- The cells targeted by a pause: the top cells or the whole grid. -/
def targetCells (onlyTopCells : Bool) (cols : List (List CellUpdate)) :
    List CellUpdate :=
  if onlyTopCells then cols.filterMap List.head? else cols.join

/-- The pauseAtOnce closure: cancel the pending update timer of every
targeted cell, reading the handles at fire time. -/
def pauseAtOnce (onlyTopCells : Bool) (s : MonitorState) : MonitorState :=
  let sc :=
    (targetCells onlyTopCells s.columns).foldl (fun sc c => sc.cancel c.timer) s.sched
  { s with sched := sc }

/-- The staggered branch of the pause body: schedule one clearTimeout per
targeted cell at an independent draw bounded by minPauseDelay and
maxPauseDelay, capturing the handle at scheduling time. -/
def scheduleStaggered (minPD maxPD : Nat) (draws : Nat → Nat) :
    List CellUpdate → Nat → Sched → Sched
  | [], _k, s => s
  | c :: rest, k, s =>
    let d := randomInt minPD maxPD (draws k)
    let pr := s.schedule d (Action.cancelTimer c.timer)
    scheduleStaggered minPD maxPD draws rest (k + 1) pr.2

/-- The body of the pause timer: clear the recurring cycle, then cancel
the targeted cells' updates at once, or schedule the staggered
cancellations plus the final sweep at maxPauseDelay. -/
def pauseBody (onlyTopCells allAtOnce : Bool) (minPD maxPD : Nat) (draws : Nat → Nat)
    (s : MonitorState) : MonitorState :=
  let s1 := { s with intervals := s.intervals.clear s.timers.mainLoopInterval }
  if allAtOnce then pauseAtOnce onlyTopCells s1
  else
    let sc2 :=
      scheduleStaggered minPD maxPD draws (targetCells onlyTopCells s1.columns) 0 s1.sched
    let s2 := { s1 with sched := sc2 }
    let pr := s2.sched.schedule maxPD (Action.pauseSweep onlyTopCells)
    { s2 with sched := pr.2 }

/-- Embeds the private pause method (part_000 lines 456-490): cancel the
pending pause task and schedule the body after the delay. -/
def runPause (opts : PauseOptions) (s : MonitorState) : MonitorState :=
  let s1 := { s with sched := s.sched.cancel s.timers.pause }
  let pr := s1.sched.schedule opts.delay
    (Action.pauseBody opts.onlyTopCells opts.allAtOnce opts.minPauseDelay opts.maxPauseDelay)
  { s1 with sched := pr.2, timers := { s1.timers with pause := some pr.1 } }

/-- Options record of the resume method. -/
structure ResumeOptions where
  delay : Nat := 0
  onlyTopCells : Bool := false
deriving Repr

/-- The per-column walk of the resume body: cells already displayed are
skipped, every other cell gets a new update task at the accumulated delay
with its stored next glyph, the handle is stored without cancelling the
previous one, and the accumulated delay grows by the stored progression
(0 when null). -/
def resumeColumnGo (colIdx : Nat) :
    List CellUpdate → Nat → Nat → Sched → List CellUpdate × Sched
  | [], _i, _cellDelay, s => ([], s)
  | c :: rest, i, cellDelay, s =>
    if c.isUpdated then
      let q := resumeColumnGo colIdx rest (i + 1) cellDelay s
      (c :: q.1, q.2)
    else
      let pr := s.schedule cellDelay (Action.updateCell colIdx i c.nextChar)
      let q := resumeColumnGo colIdx rest (i + 1) (cellDelay + c.progression.getD 0) pr.2
      (({ c with timer := some pr.1 }) :: q.1, q.2)

/-- The resume walk over all columns, the accumulated delay restarting at
0 for every column. -/
def resumeColumns : List (List CellUpdate) → Nat → Sched → List (List CellUpdate) × Sched
  | [], _i, s => ([], s)
  | col :: rest, i, s =>
    let p := resumeColumnGo i col 0 0 s
    let q := resumeColumns rest (i + 1) p.2
    (p.1 :: q.1, q.2)

/-- The body of the resume timer: restart the loop through start with
default options, then unless onlyTopCells walk every column rescheduling
the pending updates of the cells not yet displayed. -/
def resumeBody (onlyTopCells : Bool) (delayDraws dropletDraws : Nat → Nat)
    (s : MonitorState) : MonitorState :=
  let s1 := runStart {} delayDraws dropletDraws s
  if onlyTopCells then s1
  else
    let q := resumeColumns s1.columns 0 s1.sched
    { s1 with columns := q.1, sched := q.2 }

/-- Embeds the private resume method (part_000 lines 495-526): cancel the
pending resume task, then run the body now for delay 0 or schedule it. -/
def runResume (opts : ResumeOptions) (delayDraws dropletDraws : Nat → Nat)
    (s : MonitorState) : MonitorState :=
  let s1 := { s with sched := s.sched.cancel s.timers.resume }
  if opts.delay > 0 then
    let pr := s1.sched.schedule opts.delay (Action.resumeBody opts.onlyTopCells)
    { s1 with sched := pr.2, timers := { s1.timers with resume := some pr.1 } }
  else resumeBody opts.onlyTopCells delayDraws dropletDraws s1

end MatrixMon

namespace MatrixMon

/-! Interval registry lemmas. -/

theorem Intervals.nextId_clear (iv : Intervals) (h : Option Nat) :
    (iv.clear h).nextId = iv.nextId := by
  cases h <;> rfl

theorem Intervals.active_clear_self (iv : Intervals) (h : Option Nat) :
    (iv.clear h).active h = false := by
  cases h with
  | none => rfl
  | some t =>
    simp only [Intervals.clear, Intervals.active]
    rw [List.any_eq_false]
    intro e he
    have := List.of_mem_filter he
    simpa using this

theorem Intervals.self_mem_setInterval (iv : Intervals) (period : Nat) :
    (⟨iv.nextId, period⟩ : IntervalEntry) ∈ (iv.setInterval period).2.entries := by
  simp [Intervals.setInterval]

/-! Lemmas on folded clearTimeout over a cell list. -/

theorem cancelFold_nextId :
    ∀ (l : List CellUpdate) (s : Sched),
      (l.foldl (fun sc c => sc.cancel c.timer) s).nextId = s.nextId := by
  intro l
  induction l with
  | nil => intro s; rfl
  | cons c rest ih =>
    intro s
    simp only [List.foldl_cons]
    rw [ih, Sched.nextId_cancel]

theorem cancelFold_pending_false :
    ∀ (l : List CellUpdate) (s : Sched) (t : Nat), s.pending (some t) = false →
      (l.foldl (fun sc c => sc.cancel c.timer) s).pending (some t) = false := by
  intro l
  induction l with
  | nil => intro s t hp; exact hp
  | cons c rest ih =>
    intro s t hp
    simp only [List.foldl_cons]
    exact ih _ t (Sched.pending_cancel_false s c.timer t hp)

theorem cancelFold_pendingOpt_false :
    ∀ (l : List CellUpdate) (s : Sched) (h : Option Nat), s.pending h = false →
      (l.foldl (fun sc c => sc.cancel c.timer) s).pending h = false := by
  intro l s h hp
  cases h with
  | none => rfl
  | some t => exact cancelFold_pending_false l s t hp

theorem cancelFold_pending_true :
    ∀ (l : List CellUpdate) (s : Sched) (t : Nat),
      (∀ c ∈ l, c.timer ≠ some t) → s.pending (some t) = true →
      (l.foldl (fun sc c => sc.cancel c.timer) s).pending (some t) = true := by
  intro l
  induction l with
  | nil => intro s t _ hp; exact hp
  | cons c rest ih =>
    intro s t hne hp
    simp only [List.foldl_cons]
    apply ih
    · intro c2 hc2
      exact hne c2 (by simp [hc2])
    · exact Sched.pending_cancel_true s c.timer t (hne c (by simp)) hp

theorem cancelFold_cancels :
    ∀ (l : List CellUpdate) (s : Sched) (c : CellUpdate), c ∈ l →
      (l.foldl (fun sc c => sc.cancel c.timer) s).pending c.timer = false := by
  intro l
  induction l with
  | nil => intro s c hc; simp at hc
  | cons c0 rest ih =>
    intro s c hc
    rcases List.mem_cons.mp hc with hc | hc
    · subst hc
      simp only [List.foldl_cons]
      apply cancelFold_pendingOpt_false
      cases ht : c.timer with
      | none => rfl
      | some t =>
        rw [← ht]
        rw [ht]
        exact Sched.pending_cancel_self s t
    · simp only [List.foldl_cons]
      exact ih _ c hc

/-! Lemmas on the staggered pause cancellations. -/

theorem scheduleStaggered_nextId_le (minPD maxPD : Nat) (draws : Nat → Nat) :
    ∀ (cells : List CellUpdate) (k : Nat) (s : Sched),
      s.nextId ≤ (scheduleStaggered minPD maxPD draws cells k s).nextId := by
  intro cells
  induction cells with
  | nil => intro k s; exact Nat.le_refl _
  | cons c rest ih =>
    intro k s
    simp only [scheduleStaggered]
    refine Nat.le_trans ?_ (ih (k + 1)
      (s.schedule (randomInt minPD maxPD (draws k)) (Action.cancelTimer c.timer)).2)
    rw [Sched.nextId_schedule]
    omega

theorem scheduleStaggered_pending_lt (minPD maxPD : Nat) (draws : Nat → Nat) :
    ∀ (cells : List CellUpdate) (k : Nat) (s : Sched) (t : Nat), t < s.nextId →
      (scheduleStaggered minPD maxPD draws cells k s).pending (some t) =
        s.pending (some t) := by
  intro cells
  induction cells with
  | nil => intro k s t hlt; rfl
  | cons c rest ih =>
    intro k s t hlt
    simp only [scheduleStaggered]
    rw [ih (k + 1) _ t (by rw [Sched.nextId_schedule]; omega)]
    exact Sched.pending_schedule_lt s _ _ t hlt

theorem scheduleStaggered_mem (minPD maxPD : Nat) (draws : Nat → Nat) :
    ∀ (cells : List CellUpdate) (k : Nat) (s : Sched) (tk : Task), tk ∈ s.tasks →
      tk ∈ (scheduleStaggered minPD maxPD draws cells k s).tasks := by
  intro cells
  induction cells with
  | nil => intro k s tk h; exact h
  | cons c rest ih =>
    intro k s tk h
    simp only [scheduleStaggered]
    exact ih (k + 1) _ tk (Sched.mem_schedule s _ _ tk h)

theorem scheduleStaggered_tasks (minPD maxPD : Nat) (draws : Nat → Nat)
    (hpd : minPD < maxPD) :
    ∀ (cells : List CellUpdate) (k : Nat) (s : Sched) (j : Nat) (c : CellUpdate),
      cells.get? j = some c →
      ∃ id d, minPD ≤ d ∧ d ≤ maxPD ∧
        (⟨id, d, Action.cancelTimer c.timer⟩ : Task) ∈
          (scheduleStaggered minPD maxPD draws cells k s).tasks := by
  intro cells
  induction cells with
  | nil => intro k s j c hj; simp at hj
  | cons c0 rest ih =>
    intro k s j c hj
    cases j with
    | zero =>
      simp only [List.get?_cons_zero] at hj
      injection hj with hj
      subst hj
      refine ⟨s.nextId, randomInt minPD maxPD (draws k), Nat.le_add_right _ _, ?_, ?_⟩
      · have : draws k % (maxPD - minPD) < maxPD - minPD := Nat.mod_lt _ (by omega)
        unfold randomInt
        omega
      · simp only [scheduleStaggered]
        exact scheduleStaggered_mem minPD maxPD draws rest (k + 1) _ _
          (Sched.self_mem_schedule s _ _)
    | succ j =>
      simp only [List.get?_cons_succ] at hj
      simp only [scheduleStaggered]
      exact ih (k + 1) _ j c hj

/-! Lemmas on the clearing droplets scheduled by stop. -/

theorem scheduleClearDroplets_nextId_le (dropletDraws : Nat → Nat) :
    ∀ (cols : List (List CellUpdate)) (i : Nat) (s : Sched),
      s.nextId ≤ (scheduleClearDroplets dropletDraws cols i s).nextId := by
  intro cols
  induction cols with
  | nil => intro i s; exact Nat.le_refl _
  | cons col rest ih =>
    intro i s
    cases col with
    | nil =>
      simp only [scheduleClearDroplets]
      exact ih (i + 1) s
    | cons top lower =>
      simp only [scheduleClearDroplets]
      refine Nat.le_trans ?_ (ih (i + 1)
        (s.schedule (randomInt 200 2000 (dropletDraws i)) (Action.spawnDroplet i true [])).2)
      rw [Sched.nextId_schedule]
      omega

theorem scheduleClearDroplets_pending_lt (dropletDraws : Nat → Nat) :
    ∀ (cols : List (List CellUpdate)) (i : Nat) (s : Sched) (t : Nat), t < s.nextId →
      (scheduleClearDroplets dropletDraws cols i s).pending (some t) =
        s.pending (some t) := by
  intro cols
  induction cols with
  | nil => intro i s t hlt; rfl
  | cons col rest ih =>
    intro i s t hlt
    cases col with
    | nil =>
      simp only [scheduleClearDroplets]
      exact ih (i + 1) s t hlt
    | cons top lower =>
      simp only [scheduleClearDroplets]
      rw [ih (i + 1) _ t (by rw [Sched.nextId_schedule]; omega)]
      exact Sched.pending_schedule_lt s _ _ t hlt

/-! Lemmas on the main loop walk. -/

theorem mainLoopGo_nextId_le (minD maxD : Nat) (clearScreen : Bool)
    (charListAt : Nat → List (Option String)) (ignoreColumns : List Nat)
    (delayDraws : Nat → Nat) :
    ∀ (cols : List (List CellUpdate)) (i : Nat) (s : Sched),
      s.nextId ≤ (mainLoopGo minD maxD clearScreen charListAt ignoreColumns delayDraws
        cols i s).2.nextId := by
  intro cols
  induction cols with
  | nil => intro i s; exact Nat.le_refl _
  | cons col rest ih =>
    intro i s
    by_cases hig : i ∈ ignoreColumns
    · simp [mainLoopGo, hig]
      exact ih (i + 1) s
    · cases col with
      | nil =>
        simp [mainLoopGo, hig]
        exact ih (i + 1) s
      | cons top lower =>
        simp [mainLoopGo, hig]
        refine Nat.le_trans ?_ (ih (i + 1) (s.schedule (randomInt minD maxD (delayDraws i))
          (Action.spawnDroplet i clearScreen (charListAt i))).2)
        rw [Sched.nextId_schedule]
        omega

theorem mainLoopGo_pending_lt (minD maxD : Nat) (clearScreen : Bool)
    (charListAt : Nat → List (Option String)) (ignoreColumns : List Nat)
    (delayDraws : Nat → Nat) :
    ∀ (cols : List (List CellUpdate)) (i : Nat) (s : Sched) (t : Nat), t < s.nextId →
      (mainLoopGo minD maxD clearScreen charListAt ignoreColumns delayDraws
        cols i s).2.pending (some t) = s.pending (some t) := by
  intro cols
  induction cols with
  | nil => intro i s t hlt; rfl
  | cons col rest ih =>
    intro i s t hlt
    by_cases hig : i ∈ ignoreColumns
    · simp [mainLoopGo, hig]
      exact ih (i + 1) s t hlt
    · cases col with
      | nil =>
        simp [mainLoopGo, hig]
        exact ih (i + 1) s t hlt
      | cons top lower =>
        simp [mainLoopGo, hig]
        rw [ih (i + 1) _ t (by rw [Sched.nextId_schedule]; omega)]
        exact Sched.pending_schedule_lt s _ _ t hlt

theorem mainLoopGo_mem (minD maxD : Nat) (clearScreen : Bool)
    (charListAt : Nat → List (Option String)) (ignoreColumns : List Nat)
    (delayDraws : Nat → Nat) :
    ∀ (cols : List (List CellUpdate)) (i : Nat) (s : Sched) (tk : Task), tk ∈ s.tasks →
      tk ∈ (mainLoopGo minD maxD clearScreen charListAt ignoreColumns delayDraws
        cols i s).2.tasks := by
  intro cols
  induction cols with
  | nil => intro i s tk h; exact h
  | cons col rest ih =>
    intro i s tk h
    by_cases hig : i ∈ ignoreColumns
    · simp [mainLoopGo, hig]
      exact ih (i + 1) s tk h
    · cases col with
      | nil =>
        simp [mainLoopGo, hig]
        exact ih (i + 1) s tk h
      | cons top lower =>
        simp [mainLoopGo, hig]
        exact ih (i + 1) _ tk (Sched.mem_schedule s _ _ tk h)

theorem mainLoopGo_spawn (minD maxD : Nat) (clearScreen : Bool)
    (charListAt : Nat → List (Option String)) (ignoreColumns : List Nat)
    (delayDraws : Nat → Nat) (hminmax : minD < maxD) :
    ∀ (cols : List (List CellUpdate)) (i : Nat) (s : Sched) (k : Nat)
      (col : List CellUpdate),
      cols.get? k = some col → col ≠ [] → ignoreColumns.contains (i + k) = false →
      ∃ id d, s.nextId ≤ id ∧ minD ≤ d ∧ d < maxD ∧
        (⟨id, d, Action.spawnDroplet (i + k) clearScreen (charListAt (i + k))⟩ : Task) ∈
          (mainLoopGo minD maxD clearScreen charListAt ignoreColumns delayDraws
            cols i s).2.tasks := by
  intro cols
  induction cols with
  | nil => intro i s k col hk; simp at hk
  | cons col0 rest ih =>
    intro i s k col hk hne hig
    cases k with
    | zero =>
      simp only [List.get?_cons_zero] at hk
      injection hk with hk
      subst hk
      rw [Nat.add_zero] at hig
      cases hcol : col0 with
      | nil => exact absurd hcol hne
      | cons top lower =>
        subst hcol
        have higm : i ∉ ignoreColumns := by simpa using hig
        have key : ∃ id d, s.nextId ≤ id ∧ minD ≤ d ∧ d < maxD ∧
            (⟨id, d, Action.spawnDroplet i clearScreen (charListAt i)⟩ : Task) ∈
              (mainLoopGo minD maxD clearScreen charListAt ignoreColumns delayDraws
                rest (i + 1) (s.schedule (randomInt minD maxD (delayDraws i))
                  (Action.spawnDroplet i clearScreen (charListAt i))).2).2.tasks := by
          refine ⟨s.nextId, randomInt minD maxD (delayDraws i), Nat.le_refl _,
            Nat.le_add_right _ _, ?_, ?_⟩
          · have : delayDraws i % (maxD - minD) < maxD - minD := Nat.mod_lt _ (by omega)
            unfold randomInt
            omega
          · exact mainLoopGo_mem minD maxD clearScreen charListAt ignoreColumns delayDraws
              rest (i + 1) _ _ (Sched.self_mem_schedule s _ _)
        rw [Nat.add_zero]
        simpa [mainLoopGo, higm] using key
    | succ k =>
      simp only [List.get?_cons_succ] at hk
      have harg : i + (k + 1) = (i + 1) + k := by omega
      rw [harg] at hig ⊢
      by_cases hig0 : i ∈ ignoreColumns
      · have key := ih (i + 1) s k col hk hne hig
        simpa [mainLoopGo, hig0] using key
      · cases col0 with
        | nil =>
          have key := ih (i + 1) s k col hk hne hig
          simpa [mainLoopGo, hig0] using key
        | cons top lower =>
          obtain ⟨id, d, hid, h1, h2, hmem⟩ := ih (i + 1)
            (s.schedule (randomInt minD maxD (delayDraws i))
              (Action.spawnDroplet i clearScreen (charListAt i))).2 k col hk hne hig
          have key : ∃ id d, s.nextId ≤ id ∧ minD ≤ d ∧ d < maxD ∧
              (⟨id, d, Action.spawnDroplet ((i + 1) + k) clearScreen
                (charListAt ((i + 1) + k))⟩ : Task) ∈
                (mainLoopGo minD maxD clearScreen charListAt ignoreColumns delayDraws
                  rest (i + 1) (s.schedule (randomInt minD maxD (delayDraws i))
                    (Action.spawnDroplet i clearScreen (charListAt i))).2).2.tasks := by
            refine ⟨id, d, ?_, h1, h2, hmem⟩
            rw [Sched.nextId_schedule] at hid
            omega
          simpa [mainLoopGo, hig0] using key

end MatrixMon

namespace MatrixMon

/-! Characterization of the resume walk. -/

/-- The fresh cumulative delay the resume walk assigns to row r of a
column: the sum of the stored progressions (0 when null) of the
not-yet-displayed cells above row r. -/
def resumeDelay (col : List CellUpdate) (r : Nat) : Nat :=
  (((col.take r).filter (fun c => !c.isUpdated)).map (fun c => c.progression.getD 0)).sum

theorem resumeDelay_zero (col : List CellUpdate) : resumeDelay col 0 = 0 := rfl

theorem resumeDelay_cons (c : CellUpdate) (rest : List CellUpdate) (r : Nat) :
    resumeDelay (c :: rest) (r + 1) =
      (if c.isUpdated then 0 else c.progression.getD 0) + resumeDelay rest r := by
  simp only [resumeDelay, List.take_succ_cons]
  cases h : c.isUpdated <;> simp [List.filter, h]

theorem resumeColumnGo_nextId_le (colIdx : Nat) :
    ∀ (col : List CellUpdate) (i d0 : Nat) (s : Sched),
      s.nextId ≤ (resumeColumnGo colIdx col i d0 s).2.nextId := by
  intro col
  induction col with
  | nil => intro i d0 s; exact Nat.le_refl _
  | cons c rest ih =>
    intro i d0 s
    by_cases hu : c.isUpdated
    · simp [resumeColumnGo, hu]
      exact ih (i + 1) d0 s
    · simp [resumeColumnGo, hu]
      refine Nat.le_trans ?_ (ih (i + 1) (d0 + c.progression.getD 0)
        (s.schedule d0 (Action.updateCell colIdx i c.nextChar)).2)
      rw [Sched.nextId_schedule]
      omega

theorem resumeColumnGo_pending_lt (colIdx : Nat) :
    ∀ (col : List CellUpdate) (i d0 : Nat) (s : Sched) (t : Nat), t < s.nextId →
      (resumeColumnGo colIdx col i d0 s).2.pending (some t) = s.pending (some t) := by
  intro col
  induction col with
  | nil => intro i d0 s t hlt; rfl
  | cons c rest ih =>
    intro i d0 s t hlt
    by_cases hu : c.isUpdated
    · simp [resumeColumnGo, hu]
      exact ih (i + 1) d0 s t hlt
    · simp [resumeColumnGo, hu]
      rw [ih (i + 1) _ _ t (by rw [Sched.nextId_schedule]; omega)]
      exact Sched.pending_schedule_lt s _ _ t hlt

theorem resumeColumnGo_mem (colIdx : Nat) :
    ∀ (col : List CellUpdate) (i d0 : Nat) (s : Sched) (tk : Task), tk ∈ s.tasks →
      tk ∈ (resumeColumnGo colIdx col i d0 s).2.tasks := by
  intro col
  induction col with
  | nil => intro i d0 s tk h; exact h
  | cons c rest ih =>
    intro i d0 s tk h
    by_cases hu : c.isUpdated
    · simp [resumeColumnGo, hu]
      exact ih (i + 1) d0 s tk h
    · simp [resumeColumnGo, hu]
      exact ih (i + 1) _ _ tk (Sched.mem_schedule s _ _ tk h)

theorem resumeColumnGo_spec (colIdx : Nat) :
    ∀ (col : List CellUpdate) (i d0 : Nat) (s : Sched) (r : Nat) (c : CellUpdate),
      col.get? r = some c →
      (c.isUpdated = true → (resumeColumnGo colIdx col i d0 s).1.get? r = some c)
      ∧ (c.isUpdated = false → ∃ id,
          (resumeColumnGo colIdx col i d0 s).1.get? r = some { c with timer := some id }
          ∧ (⟨id, d0 + resumeDelay col r, Action.updateCell colIdx (i + r) c.nextChar⟩ : Task)
              ∈ (resumeColumnGo colIdx col i d0 s).2.tasks) := by
  intro col
  induction col with
  | nil => intro i d0 s r c hr; simp at hr
  | cons c0 rest ih =>
    intro i d0 s r c hr
    cases r with
    | zero =>
      simp only [List.get?_cons_zero] at hr
      injection hr with hr
      subst hr
      constructor
      · intro hu
        simp [resumeColumnGo, hu]
      · intro hu
        refine ⟨s.nextId, ?_, ?_⟩
        · simp [resumeColumnGo, hu, Sched.fst_schedule]
        · simp only [resumeDelay_zero, Nat.add_zero]
          simp [resumeColumnGo, hu]
          exact resumeColumnGo_mem colIdx rest (i + 1) _ _ _
            (Sched.self_mem_schedule s _ _)
    | succ r =>
      simp only [List.get?_cons_succ] at hr
      by_cases hu0 : c0.isUpdated
      · have hdel : resumeDelay (c0 :: rest) (r + 1) = resumeDelay rest r := by
          rw [resumeDelay_cons]
          simp [hu0]
        constructor
        · intro hu
          simp [resumeColumnGo, hu0]
          simpa using (ih (i + 1) d0 s r c hr).1 hu
        · intro hu
          obtain ⟨id, hcell, htask⟩ := (ih (i + 1) d0 s r c hr).2 hu
          refine ⟨id, ?_, ?_⟩
          · simp [resumeColumnGo, hu0]
            simpa using hcell
          · rw [hdel]
            have harg : i + (r + 1) = (i + 1) + r := by omega
            rw [harg]
            simp [resumeColumnGo, hu0]
            simpa using htask
      · have hdel : resumeDelay (c0 :: rest) (r + 1) =
            c0.progression.getD 0 + resumeDelay rest r := by
          rw [resumeDelay_cons]
          simp [hu0]
        constructor
        · intro hu
          simp [resumeColumnGo, hu0]
          simpa using ((ih (i + 1) (d0 + c0.progression.getD 0)
            (s.schedule d0 (Action.updateCell colIdx i c0.nextChar)).2 r c hr).1) hu
        · intro hu
          obtain ⟨id, hcell, htask⟩ :=
            (ih (i + 1) (d0 + c0.progression.getD 0)
              (s.schedule d0 (Action.updateCell colIdx i c0.nextChar)).2 r c hr).2 hu
          refine ⟨id, ?_, ?_⟩
          · simp [resumeColumnGo, hu0]
            simpa using hcell
          · rw [hdel]
            have harg : i + (r + 1) = (i + 1) + r := by omega
            have harith : d0 + (c0.progression.getD 0 + resumeDelay rest r) =
                d0 + c0.progression.getD 0 + resumeDelay rest r := by omega
            rw [harg, harith]
            simp [resumeColumnGo, hu0]
            simpa using htask

theorem resumeColumnGo_new_tasks (colIdx : Nat) :
    ∀ (col : List CellUpdate) (i d0 : Nat) (s : Sched) (tk : Task),
      tk ∈ (resumeColumnGo colIdx col i d0 s).2.tasks →
      tk ∈ s.tasks ∨ ∃ r c, col.get? r = some c ∧ c.isUpdated = false ∧
        tk.action = Action.updateCell colIdx (i + r) c.nextChar := by
  intro col
  induction col with
  | nil => intro i d0 s tk h; exact Or.inl h
  | cons c0 rest ih =>
    intro i d0 s tk h
    by_cases hu0 : c0.isUpdated
    · simp [resumeColumnGo, hu0] at h
      rcases ih (i + 1) d0 s tk h with h2 | ⟨r, c, hr, hcu, ha⟩
      · exact Or.inl h2
      · refine Or.inr ⟨r + 1, c, by simpa using hr, hcu, ?_⟩
        rw [ha]
        have harg : (i + 1) + r = i + (r + 1) := by omega
        rw [harg]
    · simp [resumeColumnGo, hu0] at h
      rcases ih (i + 1) (d0 + c0.progression.getD 0) _ tk h with h2 | ⟨r, c, hr, hcu, ha⟩
      · simp only [Sched.schedule, List.mem_append] at h2
        rcases h2 with h2 | h2
        · exact Or.inl h2
        · simp only [List.mem_singleton] at h2
          subst h2
          refine Or.inr ⟨0, c0, by simp, by simpa using hu0, ?_⟩
          simp
      · refine Or.inr ⟨r + 1, c, by simpa using hr, hcu, ?_⟩
        rw [ha]
        have harg : (i + 1) + r = i + (r + 1) := by omega
        rw [harg]

end MatrixMon

namespace MatrixMon

theorem resumeColumns_nextId_le :
    ∀ (cols : List (List CellUpdate)) (i : Nat) (s : Sched),
      s.nextId ≤ (resumeColumns cols i s).2.nextId := by
  intro cols
  induction cols with
  | nil => intro i s; exact Nat.le_refl _
  | cons col rest ih =>
    intro i s
    simp only [resumeColumns]
    exact Nat.le_trans (resumeColumnGo_nextId_le i col 0 0 s) (ih (i + 1) _)

theorem resumeColumns_pending_lt :
    ∀ (cols : List (List CellUpdate)) (i : Nat) (s : Sched) (t : Nat), t < s.nextId →
      (resumeColumns cols i s).2.pending (some t) = s.pending (some t) := by
  intro cols
  induction cols with
  | nil => intro i s t hlt; rfl
  | cons col rest ih =>
    intro i s t hlt
    simp only [resumeColumns]
    rw [ih (i + 1) _ t (Nat.lt_of_lt_of_le hlt (resumeColumnGo_nextId_le i col 0 0 s))]
    exact resumeColumnGo_pending_lt i col 0 0 s t hlt

theorem resumeColumns_mem :
    ∀ (cols : List (List CellUpdate)) (i : Nat) (s : Sched) (tk : Task), tk ∈ s.tasks →
      tk ∈ (resumeColumns cols i s).2.tasks := by
  intro cols
  induction cols with
  | nil => intro i s tk h; exact h
  | cons col rest ih =>
    intro i s tk h
    simp only [resumeColumns]
    exact ih (i + 1) _ tk (resumeColumnGo_mem i col 0 0 s tk h)

theorem resumeColumns_length :
    ∀ (cols : List (List CellUpdate)) (i : Nat) (s : Sched),
      (resumeColumns cols i s).1.length = cols.length := by
  intro cols
  induction cols with
  | nil => intro i s; rfl
  | cons col rest ih =>
    intro i s
    simp only [resumeColumns, List.length_cons]
    rw [ih]

theorem resumeColumns_spec :
    ∀ (cols : List (List CellUpdate)) (i : Nat) (s : Sched) (k : Nat)
      (col : List CellUpdate) (r : Nat) (c : CellUpdate),
      cols.get? k = some col → col.get? r = some c →
      (c.isUpdated = true →
        ((resumeColumns cols i s).1.get? k).bind (fun l => l.get? r) = some c)
      ∧ (c.isUpdated = false → ∃ id,
          ((resumeColumns cols i s).1.get? k).bind (fun l => l.get? r) =
            some { c with timer := some id }
          ∧ (⟨id, resumeDelay col r, Action.updateCell (i + k) r c.nextChar⟩ : Task)
              ∈ (resumeColumns cols i s).2.tasks) := by
  intro cols
  induction cols with
  | nil => intro i s k col r c hk; simp at hk
  | cons col0 rest ih =>
    intro i s k col r c hk hr
    cases k with
    | zero =>
      simp only [List.get?_cons_zero] at hk
      injection hk with hk
      subst hk
      constructor
      · intro hu
        simp only [resumeColumns, List.get?_cons_zero, Option.some_bind]
        exact (resumeColumnGo_spec i col0 0 0 s r c hr).1 hu
      · intro hu
        obtain ⟨id, hcell, htask⟩ := (resumeColumnGo_spec i col0 0 0 s r c hr).2 hu
        refine ⟨id, ?_, ?_⟩
        · simp only [resumeColumns, List.get?_cons_zero, Option.some_bind]
          exact hcell
        · rw [Nat.zero_add] at htask
          simp only [Nat.add_zero]
          simp only [resumeColumns]
          exact resumeColumns_mem rest (i + 1) _ _ (by simpa using htask)
    | succ k =>
      simp only [List.get?_cons_succ] at hk
      have hik : i + (k + 1) = (i + 1) + k := by omega
      rw [hik]
      simp only [resumeColumns, List.get?_cons_succ]
      exact ih (i + 1) _ k col r c hk hr

theorem resumeColumns_new_tasks :
    ∀ (cols : List (List CellUpdate)) (i : Nat) (s : Sched) (tk : Task),
      tk ∈ (resumeColumns cols i s).2.tasks →
      tk ∈ s.tasks ∨ ∃ k col r c, cols.get? k = some col ∧ col.get? r = some c ∧
        c.isUpdated = false ∧ tk.action = Action.updateCell (i + k) r c.nextChar := by
  intro cols
  induction cols with
  | nil => intro i s tk h; exact Or.inl h
  | cons col0 rest ih =>
    intro i s tk h
    simp only [resumeColumns] at h
    rcases ih (i + 1) _ tk h with h2 | ⟨k, col, r, c, hk, hr, hcu, ha⟩
    · rcases resumeColumnGo_new_tasks i col0 0 0 s tk h2 with h3 | ⟨r, c, hr, hcu, ha⟩
      · exact Or.inl h3
      · refine Or.inr ⟨0, col0, r, c, by simp, hr, hcu, ?_⟩
        rw [ha]
        simp
    · refine Or.inr ⟨k + 1, col, r, c, by simpa using hk, hr, hcu, ?_⟩
      rw [ha]
      have harg : (i + 1) + k = i + (k + 1) := by omega
      rw [harg]

end MatrixMon

namespace MatrixMon

/-! Claim C5: the pause body. -/

/-- Claim C5: once the pause delay elapses and the pause body runs, the
recurring main-loop cycle is cancelled; with allAtOnce every targeted
cell's pending update task is cancelled immediately, leaving zero pending
update tasks across the targeted cells; otherwise one cancellation of each
targeted cell's captured handle is scheduled at an independent draw inside
the minPauseDelay/maxPauseDelay bounds, a final sweep is scheduled at
maxPauseDelay, and running that sweep leaves every targeted cell without a
pending update task. -/
theorem pauseBody_spec (s : MonitorState) (onlyTop allAtOnce : Bool)
    (minPD maxPD : Nat) (draws : Nat → Nat) (hpd : minPD < maxPD) :
    ((pauseBody onlyTop allAtOnce minPD maxPD draws s).intervals.active
        s.timers.mainLoopInterval = false)
    ∧ (allAtOnce = true → ∀ c ∈ targetCells onlyTop s.columns,
        (pauseBody onlyTop allAtOnce minPD maxPD draws s).sched.pending c.timer = false)
    ∧ (allAtOnce = false →
        (∀ j c, (targetCells onlyTop s.columns).get? j = some c →
          ∃ id d, minPD ≤ d ∧ d ≤ maxPD ∧
            (⟨id, d, Action.cancelTimer c.timer⟩ : Task) ∈
              (pauseBody onlyTop allAtOnce minPD maxPD draws s).sched.tasks)
        ∧ (∃ id, (⟨id, maxPD, Action.pauseSweep onlyTop⟩ : Task) ∈
            (pauseBody onlyTop allAtOnce minPD maxPD draws s).sched.tasks)
        ∧ (∀ c ∈ targetCells onlyTop s.columns,
            (pauseAtOnce onlyTop
              (pauseBody onlyTop allAtOnce minPD maxPD draws s)).sched.pending
                c.timer = false)) := by
  refine ⟨?_, ?_, ?_⟩
  · cases allAtOnce <;>
      exact Intervals.active_clear_self s.intervals s.timers.mainLoopInterval
  · intro h c hc
    subst h
    exact cancelFold_cancels (targetCells onlyTop s.columns) s.sched c hc
  · intro h
    subst h
    refine ⟨?_, ?_, ?_⟩
    · intro j c hj
      obtain ⟨id, d, h1, h2, hmem⟩ := scheduleStaggered_tasks minPD maxPD draws hpd
        (targetCells onlyTop s.columns) 0 s.sched j c hj
      exact ⟨id, d, h1, h2, Sched.mem_schedule _ _ _ _ hmem⟩
    · exact ⟨(scheduleStaggered minPD maxPD draws (targetCells onlyTop s.columns)
        0 s.sched).nextId, Sched.self_mem_schedule _ _ _⟩
    · intro c hc
      exact cancelFold_cancels _ _ c hc

/-- Concrete monitor state used by the lifecycle witnesses: two columns,
pending update tasks under handles 0 and 1, a pending start task under
handle 2, and a recurring cycle installed under interval handle 0. -/
def sampleMonitor : MonitorState :=
  { options := sampleOptions,
    columns := [[{ timer := some 0, nextChar := some "a", progression := some 250 }],
                [{ timer := none, isUpdated := true },
                 { timer := some 1, nextChar := some "b", progression := some 300 }]],
    sched := ⟨5, [⟨0, 100, Action.updateCell 0 0 (some "a")⟩,
                  ⟨1, 200, Action.updateCell 1 1 (some "b")⟩,
                  ⟨2, 500, Action.startBody⟩]⟩,
    intervals := ⟨1, [⟨0, 10000⟩]⟩,
    timers := { mainLoopInterval := some 0, start := some 2 } }

/-- Witness for claim C5 at the concrete monitor state: an allAtOnce pause
body leaves zero pending update tasks across all cells. -/
theorem pauseBody_spec_witness :
    (0 : Nat) < 1000
    ∧ (∀ c ∈ targetCells false sampleMonitor.columns,
        (pauseBody false true 0 1000 (fun _ => 0) sampleMonitor).sched.pending
          c.timer = false) :=
  ⟨by decide,
    (pauseBody_spec sampleMonitor false true 0 1000 (fun _ => 0) (by decide)).2.1 rfl⟩

end MatrixMon

namespace MatrixMon

/-! Frame lemmas for pause and the start body. -/

theorem Sched.pending_schedule_true (s : Sched) (d : Nat) (a : Action) (t : Nat)
    (hp : s.pending (some t) = true) :
    (s.schedule d a).2.pending (some t) = true := by
  rw [Sched.pending_schedule, hp]
  rfl

theorem scheduleStaggered_pending_true (minPD maxPD : Nat) (draws : Nat → Nat) :
    ∀ (cells : List CellUpdate) (k : Nat) (s : Sched) (t : Nat),
      s.pending (some t) = true →
      (scheduleStaggered minPD maxPD draws cells k s).pending (some t) = true := by
  intro cells
  induction cells with
  | nil => intro k s t hp; exact hp
  | cons c rest ih =>
    intro k s t hp
    simp only [scheduleStaggered]
    exact ih (k + 1) _ t (Sched.pending_schedule_true s _ _ t hp)

theorem pauseBody_timers (onlyTop allAtOnce : Bool) (minPD maxPD : Nat)
    (draws : Nat → Nat) (s : MonitorState) :
    (pauseBody onlyTop allAtOnce minPD maxPD draws s).timers = s.timers := by
  cases allAtOnce <;> rfl

theorem pauseBody_columns (onlyTop allAtOnce : Bool) (minPD maxPD : Nat)
    (draws : Nat → Nat) (s : MonitorState) :
    (pauseBody onlyTop allAtOnce minPD maxPD draws s).columns = s.columns := by
  cases allAtOnce <;> rfl

theorem pauseBody_options (onlyTop allAtOnce : Bool) (minPD maxPD : Nat)
    (draws : Nat → Nat) (s : MonitorState) :
    (pauseBody onlyTop allAtOnce minPD maxPD draws s).options = s.options := by
  cases allAtOnce <;> rfl

theorem targetCells_subset_join (onlyTop : Bool) (cols : List (List CellUpdate)) :
    ∀ c ∈ targetCells onlyTop cols, c ∈ cols.join := by
  intro c hc
  cases onlyTop with
  | false => simpa [targetCells] using hc
  | true =>
    simp only [targetCells, if_true] at hc
    rcases List.mem_filterMap.mp hc with ⟨col, hcol, hhead⟩
    exact List.mem_join.mpr ⟨col, hcol, List.mem_of_mem_head? hhead⟩

theorem pauseBody_pending_true (onlyTop allAtOnce : Bool) (minPD maxPD : Nat)
    (draws : Nat → Nat) (s : MonitorState) (t : Nat)
    (hcells : ∀ c ∈ s.columns.join, c.timer ≠ some t)
    (hp : s.sched.pending (some t) = true) :
    (pauseBody onlyTop allAtOnce minPD maxPD draws s).sched.pending (some t) = true := by
  have htarget : ∀ c ∈ targetCells onlyTop s.columns, c.timer ≠ some t :=
    fun c hc => hcells c (targetCells_subset_join onlyTop s.columns c hc)
  cases allAtOnce
  · exact Sched.pending_schedule_true _ _ _ t
      (scheduleStaggered_pending_true minPD maxPD draws _ 0 s.sched t hp)
  · exact cancelFold_pending_true _ s.sched t htarget hp

theorem startBody_interval (delayDraws : Nat → Nat) (s : MonitorState) :
    (startBody delayDraws s).timers.mainLoopInterval = some s.intervals.nextId
    ∧ (⟨s.intervals.nextId, s.options.mainLoopInterval⟩ : IntervalEntry) ∈
        (startBody delayDraws s).intervals.entries := by
  have h1 : (startBody delayDraws s).timers.mainLoopInterval =
      some ((s.intervals.clear s.timers.mainLoopInterval).nextId) := rfl
  have h2 : (startBody delayDraws s).intervals =
      ((s.intervals.clear s.timers.mainLoopInterval).setInterval
        s.options.mainLoopInterval).2 := rfl
  constructor
  · rw [h1, Intervals.nextId_clear]
  · rw [h2]
    have := Intervals.self_mem_setInterval (s.intervals.clear s.timers.mainLoopInterval)
      s.options.mainLoopInterval
    rw [Intervals.nextId_clear] at this
    exact this

/-! Claim C10. -/

/-- Claim C10: pause only mutates its own pause timer, the recurring cycle
and the targeted cells' pending updates.  With a start task pending under
a handle distinct from the pause timer and from every cell's recorded
handle, calling pause and letting its body fire leaves the start task
pending and the start timer handle in place, does not touch the grid or
the resume and stop timers, preserves every pending task not owned by the
pause roles, and when the start delay later elapses the start body
reinstalls the recurring main-loop cycle at the configured interval. -/
theorem pause_keeps_start_task (s : MonitorState) (opts : PauseOptions)
    (draws delayDraws : Nat → Nat) (t : Nat)
    (hstart : s.timers.start = some t)
    (hpend : s.sched.pending (some t) = true)
    (hpause : s.timers.pause ≠ some t)
    (hcells : ∀ c ∈ s.columns.join, c.timer ≠ some t) :
    (pauseBody opts.onlyTopCells opts.allAtOnce opts.minPauseDelay opts.maxPauseDelay
        draws (runPause opts s)).timers.start = some t
    ∧ (pauseBody opts.onlyTopCells opts.allAtOnce opts.minPauseDelay opts.maxPauseDelay
        draws (runPause opts s)).sched.pending (some t) = true
    ∧ (pauseBody opts.onlyTopCells opts.allAtOnce opts.minPauseDelay opts.maxPauseDelay
        draws (runPause opts s)).columns = s.columns
    ∧ (pauseBody opts.onlyTopCells opts.allAtOnce opts.minPauseDelay opts.maxPauseDelay
        draws (runPause opts s)).timers.resume = s.timers.resume
    ∧ (pauseBody opts.onlyTopCells opts.allAtOnce opts.minPauseDelay opts.maxPauseDelay
        draws (runPause opts s)).timers.stop = s.timers.stop
    ∧ (∀ u : Nat, s.timers.pause ≠ some u → (∀ c ∈ s.columns.join, c.timer ≠ some u) →
        s.sched.pending (some u) = true →
        (pauseBody opts.onlyTopCells opts.allAtOnce opts.minPauseDelay opts.maxPauseDelay
          draws (runPause opts s)).sched.pending (some u) = true)
    ∧ (∃ iid, (startBody delayDraws
          (pauseBody opts.onlyTopCells opts.allAtOnce opts.minPauseDelay opts.maxPauseDelay
            draws (runPause opts s))).timers.mainLoopInterval = some iid
        ∧ (⟨iid, s.options.mainLoopInterval⟩ : IntervalEntry) ∈
            (startBody delayDraws
              (pauseBody opts.onlyTopCells opts.allAtOnce opts.minPauseDelay
                opts.maxPauseDelay draws (runPause opts s))).intervals.entries) := by
  have hframe : ∀ u : Nat, s.timers.pause ≠ some u →
      (∀ c ∈ s.columns.join, c.timer ≠ some u) → s.sched.pending (some u) = true →
      (pauseBody opts.onlyTopCells opts.allAtOnce opts.minPauseDelay opts.maxPauseDelay
        draws (runPause opts s)).sched.pending (some u) = true := by
    intro u hpu hcu hspu
    have h1 : (runPause opts s).sched.pending (some u) = true := by
      show ((s.sched.cancel s.timers.pause).schedule opts.delay
        (Action.pauseBody opts.onlyTopCells opts.allAtOnce opts.minPauseDelay
          opts.maxPauseDelay)).2.pending (some u) = true
      exact Sched.pending_schedule_true _ _ _ u
        (Sched.pending_cancel_true s.sched s.timers.pause u hpu hspu)
    have h2 : (runPause opts s).columns = s.columns := rfl
    apply pauseBody_pending_true
    · rw [h2]
      exact hcu
    · exact h1
  refine ⟨?_, hframe t hpause hcells hpend, ?_, ?_, ?_, hframe, ?_⟩
  · rw [pauseBody_timers]
    exact hstart
  · rw [pauseBody_columns]
    rfl
  · rw [pauseBody_timers]
    rfl
  · rw [pauseBody_timers]
    rfl
  · refine ⟨(pauseBody opts.onlyTopCells opts.allAtOnce opts.minPauseDelay
      opts.maxPauseDelay draws (runPause opts s)).intervals.nextId, ?_, ?_⟩
    · exact (startBody_interval delayDraws _).1
    · have h3 := (startBody_interval delayDraws
        (pauseBody opts.onlyTopCells opts.allAtOnce opts.minPauseDelay
          opts.maxPauseDelay draws (runPause opts s))).2
      have h4 : (pauseBody opts.onlyTopCells opts.allAtOnce opts.minPauseDelay
          opts.maxPauseDelay draws (runPause opts s)).options = s.options := by
        rw [pauseBody_options]
        rfl
      rw [h4] at h3
      exact h3

/-- Witness for claim C10 at the concrete monitor state: the start task
under handle 2 is still pending after a default pause call and its fired
body. -/
theorem pause_keeps_start_task_witness :
    sampleMonitor.timers.start = some 2
    ∧ sampleMonitor.sched.pending (some 2) = true
    ∧ sampleMonitor.timers.pause ≠ some 2
    ∧ (∀ c ∈ sampleMonitor.columns.join, c.timer ≠ some 2)
    ∧ (pauseBody false false 0 1000 (fun _ => 0)
        (runPause {} sampleMonitor)).sched.pending (some 2) = true := by
  refine ⟨rfl, by decide, by decide, by decide, ?_⟩
  exact (pause_keeps_start_task sampleMonitor {} (fun _ => 0) (fun _ => 0) 2
    rfl (by decide) (by decide) (by decide)).2.1

end MatrixMon

namespace MatrixMon

/-! Helper equations for start and stop. -/

theorem Sched.mem_cancel (s : Sched) (h : Option Nat) (tk : Task)
    (hne : h ≠ some tk.id) (hmem : tk ∈ s.tasks) : tk ∈ (s.cancel h).tasks := by
  cases h with
  | none => exact hmem
  | some u =>
    simp only [Sched.cancel]
    refine List.mem_filter.mpr ⟨hmem, ?_⟩
    simp only [bne_iff_ne, ne_eq]
    intro he
    exact hne (by rw [he])

theorem startBody_sched_eq (delayDraws : Nat → Nat) (s : MonitorState) :
    (startBody delayDraws s).sched =
      (mainLoopGo s.options.minCharStartDelay s.options.maxCharStartDelay false
        (mainLoopCharList false []) [] delayDraws s.columns 0 s.sched).2 := rfl

theorem startBody_timers_start (delayDraws : Nat → Nat) (s : MonitorState) :
    (startBody delayDraws s).timers.start = s.timers.start := rfl

theorem startBody_timers_stop (delayDraws : Nat → Nat) (s : MonitorState) :
    (startBody delayDraws s).timers.stop = s.timers.stop := rfl

theorem startBody_options (delayDraws : Nat → Nat) (s : MonitorState) :
    (startBody delayDraws s).options = s.options := rfl

theorem mainLoopCharList_nil (j : Nat) : mainLoopCharList false [] j = [] := rfl

theorem startBody_nextId_le (delayDraws : Nat → Nat) (s : MonitorState) :
    s.sched.nextId ≤ (startBody delayDraws s).sched.nextId := by
  rw [startBody_sched_eq]
  exact mainLoopGo_nextId_le _ _ _ _ _ _ s.columns 0 s.sched

theorem startBody_pending_false (delayDraws : Nat → Nat) (s : MonitorState) (t : Nat)
    (hlt : t < s.sched.nextId) (hp : s.sched.pending (some t) = false) :
    (startBody delayDraws s).sched.pending (some t) = false := by
  rw [startBody_sched_eq]
  rw [mainLoopGo_pending_lt _ _ _ _ _ _ s.columns 0 s.sched t hlt]
  exact hp

theorem startBody_spawn (delayDraws : Nat → Nat) (s : MonitorState)
    (hminmax : s.options.minCharStartDelay < s.options.maxCharStartDelay) :
    ∀ (k : Nat) (col : List CellUpdate), s.columns.get? k = some col → col ≠ [] →
      ∃ id d, s.sched.nextId ≤ id
        ∧ s.options.minCharStartDelay ≤ d ∧ d < s.options.maxCharStartDelay
        ∧ (⟨id, d, Action.spawnDroplet k false []⟩ : Task) ∈
            (startBody delayDraws s).sched.tasks := by
  intro k col hk hne
  have hig : ([] : List Nat).contains (0 + k) = false := rfl
  obtain ⟨id, d, hid, h1, h2, hmem⟩ := mainLoopGo_spawn s.options.minCharStartDelay
    s.options.maxCharStartDelay false (mainLoopCharList false []) [] delayDraws hminmax
    s.columns 0 s.sched k col hk hne hig
  rw [Nat.zero_add, mainLoopCharList_nil] at hmem
  refine ⟨id, d, hid, h1, h2, ?_⟩
  rw [startBody_sched_eq]
  exact hmem

theorem runStop_pos (opts : StopOptions) (dropletDraws : Nat → Nat) (s : MonitorState)
    (h : opts.delay > 0) :
    runStop opts dropletDraws s =
      { s with
          sched := ((s.sched.cancel s.timers.stop).schedule opts.delay.toNat
            (Action.stopBody opts.clearScreen)).2,
          timers := { s.timers with stop := some (s.sched.cancel s.timers.stop).nextId } } := by
  simp only [runStop, if_pos h]
  rfl

theorem runStop_nonpos (opts : StopOptions) (dropletDraws : Nat → Nat) (s : MonitorState)
    (h : ¬(opts.delay > 0)) :
    runStop opts dropletDraws s =
      stopBody opts.clearScreen dropletDraws
        { s with sched := s.sched.cancel s.timers.stop } := by
  simp only [runStop, if_neg h]

theorem stopBody_pending_false (clearScreen : Bool) (dropletDraws : Nat → Nat)
    (s : MonitorState) (t : Nat) (hlt : t < s.sched.nextId)
    (hp : s.sched.pending (some t) = false) :
    (stopBody clearScreen dropletDraws s).sched.pending (some t) = false := by
  cases clearScreen
  · exact cancelFold_pending_false s.columns.join s.sched t hp
  · show (scheduleClearDroplets dropletDraws s.columns 0
      (cancelCellTimers s.columns s.sched)).pending (some t) = false
    rw [scheduleClearDroplets_pending_lt dropletDraws s.columns 0 _ t ?_]
    · exact cancelFold_pending_false s.columns.join s.sched t hp
    · show t < (cancelCellTimers s.columns s.sched).nextId
      unfold cancelCellTimers
      rw [cancelFold_nextId]
      exact hlt

theorem runStop_pending_false (opts : StopOptions) (dropletDraws : Nat → Nat)
    (s : MonitorState) (t : Nat) (hlt : t < s.sched.nextId)
    (hp : s.sched.pending (some t) = false) :
    (runStop opts dropletDraws s).sched.pending (some t) = false := by
  by_cases h : opts.delay > 0
  · rw [runStop_pos opts dropletDraws s h]
    show ((s.sched.cancel s.timers.stop).schedule _ _).2.pending (some t) = false
    rw [Sched.pending_schedule_lt _ _ _ t (by rw [Sched.nextId_cancel]; exact hlt)]
    exact Sched.pending_cancel_false s.sched s.timers.stop t hp
  · rw [runStop_nonpos opts dropletDraws s h]
    apply stopBody_pending_false
    · show t < (s.sched.cancel s.timers.stop).nextId
      rw [Sched.nextId_cancel]
      exact hlt
    · exact Sched.pending_cancel_false s.sched s.timers.stop t hp

end MatrixMon

namespace MatrixMon

theorem stopBody_timers (clearScreen : Bool) (dropletDraws : Nat → Nat)
    (s : MonitorState) : (stopBody clearScreen dropletDraws s).timers = s.timers := by
  cases clearScreen <;> rfl

theorem cancelFold_mem :
    ∀ (l : List CellUpdate) (s : Sched) (tk : Task),
      (∀ c ∈ l, c.timer ≠ some tk.id) → tk ∈ s.tasks →
      tk ∈ (l.foldl (fun sc c => sc.cancel c.timer) s).tasks := by
  intro l
  induction l with
  | nil => intro s tk _ h; exact h
  | cons c rest ih =>
    intro s tk hne h
    simp only [List.foldl_cons]
    exact ih _ tk (fun c2 hc2 => hne c2 (by simp [hc2]))
      (Sched.mem_cancel s c.timer tk (hne c (by simp)) h)

/-! Claim C4: the start method. -/

/-- Clean monitor state used by the C4 counterexample: one column with one
fresh cell, nothing scheduled, the configured initialDelay 1000. -/
def startCexState : MonitorState :=
  { options := sampleOptions, columns := [[{}]], sched := ⟨0, []⟩,
    intervals := ⟨0, []⟩, timers := {} }

/-- Counterexample for claim C4 as stated: the claim says start runs the
Main-Loop Scheduler immediately when the delay option is zero, but a zero
delay is falsy in JS, so the code falls back to the configured
initialDelay of 1000: the only effect is one startBody task scheduled at
delay 1000, with no droplet spawns and no recurring cycle installed. -/
theorem runStart_zero_delay_counterexample :
    (runStart { delay := some 0, duration := none } (fun _ => 0) (fun _ => 0)
        startCexState).sched.tasks = [⟨0, 1000, Action.startBody⟩]
    ∧ (runStart { delay := some 0, duration := none } (fun _ => 0) (fun _ => 0)
        startCexState).intervals.entries = []
    ∧ (runStart { delay := some 0, duration := none } (fun _ => 0) (fun _ => 0)
        startCexState).timers.mainLoopInterval = none := by
  refine ⟨?_, ?_, ?_⟩ <;> rfl

end MatrixMon

namespace MatrixMon

/-- Claim C4, amended: start cancels any pending start task; the effective
delay is options.delay when that is a nonzero number and the configured
initialDelay otherwise (a zero delay option is falsy and falls back to the
configured value), and similarly for the effective duration.  With a
positive effective delay the start body is scheduled after it; otherwise
the body runs immediately, installing the recurring cycle at the
configured interval and invoking the Main-Loop Scheduler once, which
schedules one droplet spawn per column within the configured start-delay
bounds.  Whenever the effective duration is a number, a stop is scheduled
with delay duration + effective delay, measured from the start request. -/
theorem runStart_spec (s : MonitorState) (opts : StartOptions)
    (delayDraws dropletDraws : Nat → Nat) (eff : Int) (effDur : Option Int)
    (heff : eff = if numTruthy opts.delay then opts.delay.getD 0 else s.options.initialDelay)
    (hdur : effDur =
      if numTruthy opts.duration then opts.duration else s.options.mainLoopDuration)
    (hminmax : s.options.minCharStartDelay < s.options.maxCharStartDelay)
    (hwfstart : s.timers.start.all (fun u => decide (u < s.sched.nextId)) = true)
    (hwfstop : s.timers.stop.all (fun u => decide (u < s.sched.nextId)) = true)
    (hwfcells : ∀ c ∈ s.columns.join,
      c.timer.all (fun u => decide (u < s.sched.nextId)) = true) :
    (∀ t0, s.timers.start = some t0 →
      (runStart opts delayDraws dropletDraws s).sched.pending (some t0) = false)
    ∧ (0 < eff →
        (runStart opts delayDraws dropletDraws s).timers.start = some s.sched.nextId
        ∧ (⟨s.sched.nextId, eff.toNat, Action.startBody⟩ : Task) ∈
            (runStart opts delayDraws dropletDraws s).sched.tasks)
    ∧ (eff ≤ 0 → (effDur = none ∨ ∃ d, effDur = some d ∧ 0 < d + eff) →
        (runStart opts delayDraws dropletDraws s).timers.mainLoopInterval
            = some s.intervals.nextId
        ∧ (⟨s.intervals.nextId, s.options.mainLoopInterval⟩ : IntervalEntry) ∈
            (runStart opts delayDraws dropletDraws s).intervals.entries
        ∧ (∀ k col, s.columns.get? k = some col → col ≠ [] →
            ∃ id d2, s.options.minCharStartDelay ≤ d2
              ∧ d2 < s.options.maxCharStartDelay
              ∧ (⟨id, d2, Action.spawnDroplet k false []⟩ : Task) ∈
                  (runStart opts delayDraws dropletDraws s).sched.tasks))
    ∧ (∀ d, effDur = some d → 0 < d + eff →
        ∃ sid, (runStart opts delayDraws dropletDraws s).timers.stop = some sid
          ∧ (⟨sid, (d + eff).toNat, Action.stopBody false⟩ : Task) ∈
              (runStart opts delayDraws dropletDraws s).sched.tasks) := by
  have hstart_lt : ∀ t0, s.timers.start = some t0 → t0 < s.sched.nextId := by
    intro t0 h
    rw [h] at hwfstart
    simpa using hwfstart
  have hstop_lt : ∀ t0, s.timers.stop = some t0 → t0 < s.sched.nextId := by
    intro t0 h
    rw [h] at hwfstop
    simpa using hwfstop
  rcases effDur with _ | d
  · -- no effective duration: no stop is scheduled
    have hout : runStart opts delayDraws dropletDraws s =
        (if eff > 0 then
          { s with
              sched := ((s.sched.cancel s.timers.start).schedule eff.toNat
                Action.startBody).2,
              timers := { s.timers with
                start := some (s.sched.cancel s.timers.start).nextId } }
        else startBody delayDraws { s with sched := s.sched.cancel s.timers.start }) := by
      simp only [runStart]
      rw [← heff, ← hdur]
      rfl
    by_cases hp : eff > 0
    · rw [hout, if_pos hp]
      refine ⟨?_, ?_, ?_, ?_⟩
      · intro t0 ht0
        show ((s.sched.cancel s.timers.start).schedule eff.toNat
          Action.startBody).2.pending (some t0) = false
        rw [Sched.pending_schedule_lt _ _ _ t0
          (by rw [Sched.nextId_cancel]; exact hstart_lt t0 ht0)]
        rw [ht0]
        exact Sched.pending_cancel_self s.sched t0
      · intro _
        constructor
        · show some (s.sched.cancel s.timers.start).nextId = some s.sched.nextId
          rw [Sched.nextId_cancel]
        · have := Sched.self_mem_schedule (s.sched.cancel s.timers.start) eff.toNat
            Action.startBody
          rw [Sched.nextId_cancel] at this
          exact this
      · intro hle
        exact absurd hp (by omega)
      · intro d hd
        exact absurd hd (by simp)
    · rw [hout, if_neg hp]
      have hle : eff ≤ 0 := by omega
      refine ⟨?_, ?_, ?_, ?_⟩
      · intro t0 ht0
        apply startBody_pending_false
        · show t0 < (s.sched.cancel s.timers.start).nextId
          rw [Sched.nextId_cancel]
          exact hstart_lt t0 ht0
        · show (s.sched.cancel s.timers.start).pending (some t0) = false
          rw [ht0]
          exact Sched.pending_cancel_self s.sched t0
      · intro hpos
        exact absurd hpos (by omega)
      · intro _ _
        refine ⟨?_, ?_, ?_⟩
        · exact (startBody_interval delayDraws
            { s with sched := s.sched.cancel s.timers.start }).1
        · exact (startBody_interval delayDraws
            { s with sched := s.sched.cancel s.timers.start }).2
        · intro k col hk hne
          obtain ⟨id, d2, _, h1, h2, hmem⟩ := startBody_spawn delayDraws
            { s with sched := s.sched.cancel s.timers.start } hminmax k col hk hne
          exact ⟨id, d2, h1, h2, hmem⟩
      · intro d hd
        exact absurd hd (by simp)
  · -- a numeric effective duration schedules the stop
    have hout : runStart opts delayDraws dropletDraws s =
        runStop { delay := d + eff, clearScreen := false } dropletDraws
          (if eff > 0 then
            { s with
                sched := ((s.sched.cancel s.timers.start).schedule eff.toNat
                  Action.startBody).2,
                timers := { s.timers with
                  start := some (s.sched.cancel s.timers.start).nextId } }
          else startBody delayDraws { s with sched := s.sched.cancel s.timers.start }) := by
      simp only [runStart]
      rw [← heff, ← hdur]
      rfl
    -- facts about the intermediate state s2 in both delay branches
    by_cases hp : eff > 0
    · rw [hout, if_pos hp]
      have hA : ∀ t0, s.timers.start = some t0 →
          (({ s with
              sched := ((s.sched.cancel s.timers.start).schedule eff.toNat
                Action.startBody).2,
              timers := { s.timers with
                start := some (s.sched.cancel s.timers.start).nextId } } :
            MonitorState)).sched.pending (some t0) = false := by
        intro t0 ht0
        show ((s.sched.cancel s.timers.start).schedule eff.toNat
          Action.startBody).2.pending (some t0) = false
        rw [Sched.pending_schedule_lt _ _ _ t0
          (by rw [Sched.nextId_cancel]; exact hstart_lt t0 ht0)]
        rw [ht0]
        exact Sched.pending_cancel_self s.sched t0
      refine ⟨?_, ?_, ?_, ?_⟩
      · intro t0 ht0
        apply runStop_pending_false
        · show t0 < ((s.sched.cancel s.timers.start).schedule eff.toNat
            Action.startBody).2.nextId
          rw [Sched.nextId_schedule, Sched.nextId_cancel]
          have := hstart_lt t0 ht0
          omega
        · exact hA t0 ht0
      · intro _
        by_cases hq : (0:Int) < d + eff
        · rw [runStop_pos _ _ _ (by simpa using hq)]
          constructor
          · show some (s.sched.cancel s.timers.start).nextId = some s.sched.nextId
            rw [Sched.nextId_cancel]
          · have hmem0 := Sched.self_mem_schedule (s.sched.cancel s.timers.start)
              eff.toNat Action.startBody
            rw [Sched.nextId_cancel] at hmem0
            apply Sched.mem_schedule
            apply Sched.mem_cancel
            · show ({ s with
                  sched := ((s.sched.cancel s.timers.start).schedule eff.toNat
                    Action.startBody).2,
                  timers := { s.timers with
                    start := some (s.sched.cancel s.timers.start).nextId } } :
                MonitorState).timers.stop ≠ some s.sched.nextId
              show s.timers.stop ≠ some s.sched.nextId
              intro habs
              have := hstop_lt _ habs
              omega
            · exact hmem0
        · rw [runStop_nonpos _ _ _ (by simpa using hq)]
          constructor
          · rw [stopBody_timers]
            show some (s.sched.cancel s.timers.start).nextId = some s.sched.nextId
            rw [Sched.nextId_cancel]
          · have hmem0 := Sched.self_mem_schedule (s.sched.cancel s.timers.start)
              eff.toNat Action.startBody
            rw [Sched.nextId_cancel] at hmem0
            show (⟨s.sched.nextId, eff.toNat, Action.startBody⟩ : Task) ∈
              (cancelCellTimers s.columns
                (((s.sched.cancel s.timers.start).schedule eff.toNat
                  Action.startBody).2.cancel s.timers.stop)).tasks
            apply cancelFold_mem
            · intro c hc habs
              have hcwf := hwfcells c hc
              rw [habs] at hcwf
              simp at hcwf
            · apply Sched.mem_cancel
              · intro habs
                have h2 := hstop_lt _ habs
                simp at h2
              · exact hmem0
      · intro hle
        exact absurd hp (by omega)
      · intro d2 hd2 hq
        injection hd2 with hd2
        subst hd2
        rw [runStop_pos _ _ _ (by simpa using hq)]
        refine ⟨_, rfl, ?_⟩
        exact Sched.self_mem_schedule _ _ _
    · rw [hout, if_neg hp]
      have hle : eff ≤ 0 := by omega
      have hBnext : s.sched.nextId ≤
          (startBody delayDraws
            { s with sched := s.sched.cancel s.timers.start }).sched.nextId := by
        have h0 := startBody_nextId_le delayDraws
          { s with sched := s.sched.cancel s.timers.start }
        have h1 : ({ s with sched := s.sched.cancel s.timers.start } :
            MonitorState).sched.nextId = s.sched.nextId := Sched.nextId_cancel _ _
        rw [h1] at h0
        exact h0
      have hB : ∀ t0, s.timers.start = some t0 →
          (startBody delayDraws
            { s with sched := s.sched.cancel s.timers.start }).sched.pending
              (some t0) = false := by
        intro t0 ht0
        apply startBody_pending_false
        · show t0 < (s.sched.cancel s.timers.start).nextId
          rw [Sched.nextId_cancel]
          exact hstart_lt t0 ht0
        · show (s.sched.cancel s.timers.start).pending (some t0) = false
          rw [ht0]
          exact Sched.pending_cancel_self s.sched t0
      refine ⟨?_, ?_, ?_, ?_⟩
      · intro t0 ht0
        apply runStop_pending_false
        · exact Nat.lt_of_lt_of_le (hstart_lt t0 ht0) hBnext
        · exact hB t0 ht0
      · intro hpos
        exact absurd hpos (by omega)
      · intro _ hcond
        rcases hcond with hcond | ⟨d2, hd2, hq⟩
        · exact absurd hcond (by simp)
        · injection hd2 with hd2
          subst hd2
          rw [runStop_pos _ _ _ (by simpa using hq)]
          refine ⟨?_, ?_, ?_⟩
          · show (startBody delayDraws
              { s with sched := s.sched.cancel s.timers.start }).timers.mainLoopInterval
                = some s.intervals.nextId
            exact (startBody_interval delayDraws
              { s with sched := s.sched.cancel s.timers.start }).1
          · show (⟨s.intervals.nextId, s.options.mainLoopInterval⟩ : IntervalEntry) ∈
              (startBody delayDraws
                { s with sched := s.sched.cancel s.timers.start }).intervals.entries
            exact (startBody_interval delayDraws
              { s with sched := s.sched.cancel s.timers.start }).2
          · intro k col hk hne
            obtain ⟨id, d3, hid, h1, h2, hmem⟩ := startBody_spawn delayDraws
              { s with sched := s.sched.cancel s.timers.start } hminmax k col hk hne
            have hid2 : s.sched.nextId ≤ id := by
              have h1b : ({ s with sched := s.sched.cancel s.timers.start } :
                  MonitorState).sched.nextId = s.sched.nextId := Sched.nextId_cancel _ _
              rw [h1b] at hid
              exact hid
            refine ⟨id, d3, h1, h2, ?_⟩
            apply Sched.mem_schedule
            apply Sched.mem_cancel
            · rw [startBody_timers_stop]
              show s.timers.stop ≠ some id
              intro habs
              have := hstop_lt _ habs
              omega
            · exact hmem
      · intro d2 hd2 hq
        injection hd2 with hd2
        subst hd2
        rw [runStop_pos _ _ _ (by simpa using hq)]
        refine ⟨_, rfl, ?_⟩
        exact Sched.self_mem_schedule _ _ _

/-- Witness for the amended claim C4 at a concrete call with a positive
delay option: the pending start task under handle 2 is cancelled and a
fresh start task is installed at delay 700. -/
theorem runStart_spec_witness :
    ((5:Int) = if numTruthy (some 5) then (some (5:Int)).getD 0
      else sampleMonitor.options.initialDelay)
    ∧ ((none : Option Int) = if numTruthy none then (none : Option Int)
        else sampleMonitor.options.mainLoopDuration)
    ∧ sampleMonitor.options.minCharStartDelay < sampleMonitor.options.maxCharStartDelay
    ∧ sampleMonitor.timers.start.all
        (fun u => decide (u < sampleMonitor.sched.nextId)) = true
    ∧ (runStart { delay := some 5, duration := none } (fun _ => 0) (fun _ => 0)
        sampleMonitor).sched.pending (some 2) = false := by
  refine ⟨by decide, by decide, by decide, by decide, ?_⟩
  exact (runStart_spec sampleMonitor { delay := some 5, duration := none }
    (fun _ => 0) (fun _ => 0) 5 none (by decide) (by decide) (by decide)
    (by decide) (by decide) (by decide)).1 2 rfl

end MatrixMon

namespace MatrixMon

/-! Claim C8: cancellation before overwriting a handle. -/

/-- Monitor state for the C8 counterexample: the single top cell holds
handle 5 whose update task is still pending. -/
def mainLoopCexState : MonitorState :=
  { options := sampleOptions,
    columns := [[{ timer := some 5, nextChar := some "a" }]],
    sched := ⟨6, [⟨5, 100, Action.updateCell 0 0 (some "a")⟩]⟩,
    intervals := ⟨0, []⟩, timers := {} }

/-- Counterexample for claim C8 as stated: the Main-Loop Scheduler stores
the fresh droplet-spawn handle 6 into the top cell WITHOUT cancelling the
pending task under the overwritten handle 5, so a stale callback remains
scheduled under an overwritten handle. -/
theorem mainLoop_overwrite_counterexample :
    (mainLoop {} (fun _ => 0) mainLoopCexState).sched.pending (some 5) = true
    ∧ ((mainLoop {} (fun _ => 0) mainLoopCexState).columns.get? 0).bind
        (fun col => col.get? 0) =
      some { timer := some 6, nextChar := some "a" } := by
  refine ⟨?_, ?_⟩ <;> rfl

theorem stopBody_nextId_le (clearScreen : Bool) (dropletDraws : Nat → Nat)
    (s : MonitorState) :
    s.sched.nextId ≤ (stopBody clearScreen dropletDraws s).sched.nextId := by
  cases clearScreen
  · show s.sched.nextId ≤ (cancelCellTimers s.columns s.sched).nextId
    unfold cancelCellTimers
    rw [cancelFold_nextId]
  · show s.sched.nextId ≤ (scheduleClearDroplets dropletDraws s.columns 0
      (cancelCellTimers s.columns s.sched)).nextId
    refine Nat.le_trans ?_ (scheduleClearDroplets_nextId_le dropletDraws s.columns 0 _)
    unfold cancelCellTimers
    rw [cancelFold_nextId]

theorem runStop_nextId_le (opts : StopOptions) (dropletDraws : Nat → Nat)
    (s : MonitorState) :
    s.sched.nextId ≤ (runStop opts dropletDraws s).sched.nextId := by
  by_cases hq : opts.delay > 0
  · rw [runStop_pos _ _ _ hq]
    show s.sched.nextId ≤ ((s.sched.cancel s.timers.stop).schedule _ _).2.nextId
    rw [Sched.nextId_schedule, Sched.nextId_cancel]
    omega
  · rw [runStop_nonpos _ _ _ hq]
    refine Nat.le_trans ?_ (stopBody_nextId_le opts.clearScreen dropletDraws _)
    show s.sched.nextId ≤ (s.sched.cancel s.timers.stop).nextId
    rw [Sched.nextId_cancel]

theorem runStop_nextId_le2 (opts : StopOptions) (dropletDraws : Nat → Nat)
    (s : MonitorState) (n : Nat) (h : n ≤ s.sched.nextId) :
    n ≤ (runStop opts dropletDraws s).sched.nextId :=
  Nat.le_trans h (runStop_nextId_le opts dropletDraws s)

theorem runStop_pending_false_general (opts : StopOptions) (dropletDraws : Nat → Nat)
    (s : MonitorState) (t0 : Nat) (hlt : t0 < s.sched.nextId)
    (h : (s.sched.cancel s.timers.stop).pending (some t0) = false) :
    (runStop opts dropletDraws s).sched.pending (some t0) = false := by
  by_cases hq : opts.delay > 0
  · rw [runStop_pos _ _ _ hq]
    show ((s.sched.cancel s.timers.stop).schedule _ _).2.pending (some t0) = false
    rw [Sched.pending_schedule_lt _ _ _ t0 (by rw [Sched.nextId_cancel]; exact hlt)]
    exact h
  · rw [runStop_nonpos _ _ _ hq]
    apply stopBody_pending_false
    · show t0 < (s.sched.cancel s.timers.stop).nextId
      rw [Sched.nextId_cancel]
      exact hlt
    · exact h

theorem runStart_pending_false_general (opts : StartOptions) (d1 d2 : Nat → Nat)
    (s : MonitorState) (t0 : Nat) (hlt : t0 < s.sched.nextId)
    (h : (s.sched.cancel s.timers.start).pending (some t0) = false) :
    (runStart opts d1 d2 s).sched.pending (some t0) = false := by
  have hA : (((s.sched.cancel s.timers.start).schedule
      (if numTruthy opts.delay then opts.delay.getD 0
        else s.options.initialDelay).toNat Action.startBody).2).pending (some t0)
      = false := by
    rw [Sched.pending_schedule_lt _ _ _ t0 (by rw [Sched.nextId_cancel]; exact hlt)]
    exact h
  have hAn : t0 < (((s.sched.cancel s.timers.start).schedule
      (if numTruthy opts.delay then opts.delay.getD 0
        else s.options.initialDelay).toNat Action.startBody).2).nextId := by
    rw [Sched.nextId_schedule, Sched.nextId_cancel]
    omega
  have hB : (startBody d1
      { s with sched := s.sched.cancel s.timers.start }).sched.pending (some t0)
      = false := by
    apply startBody_pending_false
    · show t0 < (s.sched.cancel s.timers.start).nextId
      rw [Sched.nextId_cancel]
      exact hlt
    · exact h
  have hBn : t0 < (startBody d1
      { s with sched := s.sched.cancel s.timers.start }).sched.nextId := by
    refine Nat.lt_of_lt_of_le ?_ (startBody_nextId_le d1 _)
    show t0 < (s.sched.cancel s.timers.start).nextId
    rw [Sched.nextId_cancel]
    exact hlt
  rcases hD : (if numTruthy opts.duration then opts.duration
      else s.options.mainLoopDuration) with _ | d <;>
    by_cases hp : (if numTruthy opts.delay then opts.delay.getD 0
      else s.options.initialDelay) > 0
  · have hout : runStart opts d1 d2 s =
        { s with
            sched := ((s.sched.cancel s.timers.start).schedule
              (if numTruthy opts.delay then opts.delay.getD 0
                else s.options.initialDelay).toNat Action.startBody).2,
            timers := { s.timers with
              start := some (s.sched.cancel s.timers.start).nextId } } := by
      simp only [runStart]
      rw [hD, if_pos hp]
      rfl
    rw [hout]
    exact hA
  · have hout : runStart opts d1 d2 s =
        startBody d1 { s with sched := s.sched.cancel s.timers.start } := by
      simp only [runStart]
      rw [hD, if_neg hp]
    rw [hout]
    exact hB
  · have hout : runStart opts d1 d2 s =
        runStop { delay := d + (if numTruthy opts.delay then opts.delay.getD 0
            else s.options.initialDelay), clearScreen := false } d2
          { s with
              sched := ((s.sched.cancel s.timers.start).schedule
                (if numTruthy opts.delay then opts.delay.getD 0
                  else s.options.initialDelay).toNat Action.startBody).2,
              timers := { s.timers with
                start := some (s.sched.cancel s.timers.start).nextId } } := by
      simp only [runStart]
      rw [hD, if_pos hp]
      rfl
    rw [hout]
    apply runStop_pending_false
    · exact hAn
    · exact hA
  · have hout : runStart opts d1 d2 s =
        runStop { delay := d + (if numTruthy opts.delay then opts.delay.getD 0
            else s.options.initialDelay), clearScreen := false } d2
          (startBody d1 { s with sched := s.sched.cancel s.timers.start }) := by
      simp only [runStart]
      rw [hD, if_neg hp]
    rw [hout]
    apply runStop_pending_false
    · exact hBn
    · exact hB

theorem runStart_nextId_le (opts : StartOptions) (d1 d2 : Nat → Nat)
    (s : MonitorState) :
    s.sched.nextId ≤ (runStart opts d1 d2 s).sched.nextId := by
  have hAn : s.sched.nextId ≤ (((s.sched.cancel s.timers.start).schedule
      (if numTruthy opts.delay then opts.delay.getD 0
        else s.options.initialDelay).toNat Action.startBody).2).nextId := by
    rw [Sched.nextId_schedule, Sched.nextId_cancel]
    omega
  have hBn : s.sched.nextId ≤ (startBody d1
      { s with sched := s.sched.cancel s.timers.start }).sched.nextId := by
    refine Nat.le_trans ?_ (startBody_nextId_le d1 _)
    show s.sched.nextId ≤ (s.sched.cancel s.timers.start).nextId
    rw [Sched.nextId_cancel]
  rcases hD : (if numTruthy opts.duration then opts.duration
      else s.options.mainLoopDuration) with _ | d <;>
    by_cases hp : (if numTruthy opts.delay then opts.delay.getD 0
      else s.options.initialDelay) > 0
  · have hout : runStart opts d1 d2 s =
        { s with
            sched := ((s.sched.cancel s.timers.start).schedule
              (if numTruthy opts.delay then opts.delay.getD 0
                else s.options.initialDelay).toNat Action.startBody).2,
            timers := { s.timers with
              start := some (s.sched.cancel s.timers.start).nextId } } := by
      simp only [runStart]
      rw [hD, if_pos hp]
      rfl
    rw [hout]
    exact hAn
  · have hout : runStart opts d1 d2 s =
        startBody d1 { s with sched := s.sched.cancel s.timers.start } := by
      simp only [runStart]
      rw [hD, if_neg hp]
    rw [hout]
    exact hBn
  · have hout : runStart opts d1 d2 s =
        runStop { delay := d + (if numTruthy opts.delay then opts.delay.getD 0
            else s.options.initialDelay), clearScreen := false } d2
          { s with
              sched := ((s.sched.cancel s.timers.start).schedule
                (if numTruthy opts.delay then opts.delay.getD 0
                  else s.options.initialDelay).toNat Action.startBody).2,
              timers := { s.timers with
                start := some (s.sched.cancel s.timers.start).nextId } } := by
      simp only [runStart]
      rw [hD, if_pos hp]
      rfl
    rw [hout]
    exact runStop_nextId_le2 _ _ _ _ hAn
  · have hout : runStart opts d1 d2 s =
        runStop { delay := d + (if numTruthy opts.delay then opts.delay.getD 0
            else s.options.initialDelay), clearScreen := false } d2
          (startBody d1 { s with sched := s.sched.cancel s.timers.start }) := by
      simp only [runStart]
      rw [hD, if_neg hp]
    rw [hout]
    exact runStop_nextId_le2 _ _ _ _ hBn

end MatrixMon

namespace MatrixMon

theorem runResume_pos (opts : ResumeOptions) (d1 d2 : Nat → Nat) (s : MonitorState)
    (h : opts.delay > 0) :
    runResume opts d1 d2 s =
      { s with
          sched := ((s.sched.cancel s.timers.resume).schedule opts.delay
            (Action.resumeBody opts.onlyTopCells)).2,
          timers := { s.timers with
            resume := some (s.sched.cancel s.timers.resume).nextId } } := by
  simp only [runResume, if_pos h]
  rfl

theorem runResume_nonpos (opts : ResumeOptions) (d1 d2 : Nat → Nat) (s : MonitorState)
    (h : ¬(opts.delay > 0)) :
    runResume opts d1 d2 s =
      resumeBody opts.onlyTopCells d1 d2
        { s with sched := s.sched.cancel s.timers.resume } := by
  simp only [runResume, if_neg h]

theorem resumeBody_pending_false (onlyTop : Bool) (d1 d2 : Nat → Nat)
    (s : MonitorState) (t0 : Nat) (hlt : t0 < s.sched.nextId)
    (h : (s.sched.cancel s.timers.start).pending (some t0) = false) :
    (resumeBody onlyTop d1 d2 s).sched.pending (some t0) = false := by
  have hrs := runStart_pending_false_general {} d1 d2 s t0 hlt h
  cases onlyTop
  · show (resumeColumns (runStart {} d1 d2 s).columns 0
      (runStart {} d1 d2 s).sched).2.pending (some t0) = false
    rw [resumeColumns_pending_lt _ 0 _ t0
      (Nat.lt_of_lt_of_le hlt (runStart_nextId_le {} d1 d2 s))]
    exact hrs
  · exact hrs

/-- Claim C8, amended: each lifecycle operation cancels the prior pending
task held under its own timer role before a new handle is recorded there,
and createDroplet cancels each cell's previously recorded pending update
before overwriting it; the Main-Loop Scheduler however overwrites a top
cell's stored handle with the fresh droplet-spawn handle WITHOUT
cancelling the previous task (see the counterexample), so the no-stale-
callback guarantee holds for the lifecycle timers and the droplet walk but
not for the droplet-spawn handles stored by mainLoop. -/
theorem cancel_before_overwrite (s : MonitorState) :
    (∀ t0, s.timers.start = some t0 → t0 < s.sched.nextId →
      ∀ (opts : StartOptions) (d1 d2 : Nat → Nat),
        (runStart opts d1 d2 s).sched.pending (some t0) = false)
    ∧ (∀ t0, s.timers.pause = some t0 → t0 < s.sched.nextId →
        ∀ (opts : PauseOptions), (runPause opts s).sched.pending (some t0) = false)
    ∧ (∀ t0, s.timers.resume = some t0 → t0 < s.sched.nextId →
        ∀ (opts : ResumeOptions) (d1 d2 : Nat → Nat),
          (runResume opts d1 d2 s).sched.pending (some t0) = false)
    ∧ (∀ t0, s.timers.stop = some t0 → t0 < s.sched.nextId →
        ∀ (opts : StopOptions) (d2 : Nat → Nat),
          (runStop opts d2 s).sched.pending (some t0) = false)
    ∧ (∀ (opts : Options) (colIdx : Nat) (dopts : DropletOptions) (pdraw : Nat)
        (draws : Nat → Nat) (cells : List CellUpdate) (sch : Sched),
        (∀ c ∈ cells, ∀ u, c.timer = some u → u < sch.nextId) →
        ∀ c ∈ cells,
          (createDroplet opts colIdx dopts pdraw draws cells sch).2.pending
            c.timer = false) := by
  refine ⟨?_, ?_, ?_, ?_, ?_⟩
  · intro t0 ht0 hlt opts d1 d2
    apply runStart_pending_false_general opts d1 d2 s t0 hlt
    rw [ht0]
    exact Sched.pending_cancel_self s.sched t0
  · intro t0 ht0 hlt opts
    show ((s.sched.cancel s.timers.pause).schedule opts.delay
      (Action.pauseBody opts.onlyTopCells opts.allAtOnce opts.minPauseDelay
        opts.maxPauseDelay)).2.pending (some t0) = false
    rw [Sched.pending_schedule_lt _ _ _ t0 (by rw [Sched.nextId_cancel]; exact hlt)]
    rw [ht0]
    exact Sched.pending_cancel_self s.sched t0
  · intro t0 ht0 hlt opts d1 d2
    by_cases hq : opts.delay > 0
    · rw [runResume_pos _ _ _ _ hq]
      show ((s.sched.cancel s.timers.resume).schedule opts.delay
        (Action.resumeBody opts.onlyTopCells)).2.pending (some t0) = false
      rw [Sched.pending_schedule_lt _ _ _ t0 (by rw [Sched.nextId_cancel]; exact hlt)]
      rw [ht0]
      exact Sched.pending_cancel_self s.sched t0
    · rw [runResume_nonpos _ _ _ _ hq]
      apply resumeBody_pending_false
      · show t0 < (s.sched.cancel s.timers.resume).nextId
        rw [Sched.nextId_cancel]
        exact hlt
      · show ((s.sched.cancel s.timers.resume).cancel s.timers.start).pending
          (some t0) = false
        apply Sched.pending_cancel_false
        rw [ht0]
        exact Sched.pending_cancel_self s.sched t0
  · intro t0 ht0 hlt opts d2
    apply runStop_pending_false_general opts d2 s t0 hlt
    rw [ht0]
    exact Sched.pending_cancel_self s.sched t0
  · intro opts colIdx dopts pdraw draws cells sch hb c hc
    exact createDropletGo_cancels opts.alphabet colIdx dopts.clearScreen dopts.charList
      draws (randomInt opts.minCharProgression opts.maxCharProgression pdraw)
      cells 0 0 none sch hb c hc

/-- Witness for the amended claim C8 at the concrete monitor state: a
start call cancels the pending start task under handle 2. -/
theorem cancel_before_overwrite_witness :
    sampleMonitor.timers.start = some 2
    ∧ 2 < sampleMonitor.sched.nextId
    ∧ (runStart {} (fun _ => 0) (fun _ => 0) sampleMonitor).sched.pending (some 2)
        = false := by
  refine ⟨rfl, by decide, ?_⟩
  exact (cancel_before_overwrite sampleMonitor).1 2 rfl (by decide) {}
    (fun _ => 0) (fun _ => 0)

end MatrixMon

namespace MatrixMon

theorem Sched.mem_of_mem_cancel (s : Sched) (h : Option Nat) (tk : Task)
    (hmem : tk ∈ (s.cancel h).tasks) : tk ∈ s.tasks := by
  cases h with
  | none => exact hmem
  | some u => exact (List.mem_filter.mp hmem).1

theorem Sched.mem_schedule_cases (s : Sched) (d : Nat) (a : Action) (tk : Task)
    (h : tk ∈ (s.schedule d a).2.tasks) :
    tk ∈ s.tasks ∨ tk = ⟨s.nextId, d, a⟩ := by
  simp only [Sched.schedule, List.mem_append, List.mem_singleton] at h
  exact h

theorem runStart_default_pos (d1 d2 : Nat → Nat) (s : MonitorState)
    (hinit : 0 < s.options.initialDelay)
    (hdur : s.options.mainLoopDuration = none) :
    runStart {} d1 d2 s =
      { s with
          sched := ((s.sched.cancel s.timers.start).schedule
            s.options.initialDelay.toNat Action.startBody).2,
          timers := { s.timers with
            start := some (s.sched.cancel s.timers.start).nextId } } := by
  have h1 : numTruthy ({} : StartOptions).delay = false := rfl
  have h2 : numTruthy ({} : StartOptions).duration = false := rfl
  simp only [runStart, h1, h2, Bool.false_eq_true, if_false, hdur]
  rw [if_pos hinit, Sched.fst_schedule]

end MatrixMon

namespace MatrixMon

/-! Claim C3: the resume walk over all cells. -/

/-- Claim C3: resume with onlyTopCells false and no delay restarts the
loop via start with default options (a start task at the configured
initial delay becomes pending under a fresh recorded handle), keeps the
grid shape, leaves every already-displayed cell untouched and gives it no
new update task, and reschedules an update task for every cell whose
has-displayed flag is false, passing its previously stored next glyph,
at a delay that is a fresh cumulative sum of the stored progressions of
the not-yet-displayed cells above it, restarting at 0 for each column. -/
theorem resume_reschedules (s : MonitorState) (d1 d2 : Nat → Nat)
    (hinit : 0 < s.options.initialDelay)
    (hdur : s.options.mainLoopDuration = none)
    (hwf : ∀ tk ∈ s.sched.tasks, tk.id < s.sched.nextId) :
    (runResume {} d1 d2 s).timers.start = some s.sched.nextId
    ∧ (⟨s.sched.nextId, s.options.initialDelay.toNat, Action.startBody⟩ : Task)
        ∈ (runResume {} d1 d2 s).sched.tasks
    ∧ (runResume {} d1 d2 s).columns.length = s.columns.length
    ∧ ∀ k col r c, s.columns.get? k = some col → col.get? r = some c →
        (c.isUpdated = true →
          ((runResume {} d1 d2 s).columns.get? k).bind (fun l => l.get? r) = some c
          ∧ ∀ tk ∈ (runResume {} d1 d2 s).sched.tasks, ∀ g,
              tk.action = Action.updateCell k r g → tk.id < s.sched.nextId)
        ∧ (c.isUpdated = false → ∃ id,
            ((runResume {} d1 d2 s).columns.get? k).bind (fun l => l.get? r)
              = some { c with timer := some id }
            ∧ (⟨id, resumeDelay col r, Action.updateCell k r c.nextChar⟩ : Task)
                ∈ (runResume {} d1 d2 s).sched.tasks) := by
  have hb : ((s.sched.cancel s.timers.resume).cancel s.timers.start).nextId
      = s.sched.nextId := by
    rw [Sched.nextId_cancel, Sched.nextId_cancel]
  have hrw : runResume ({} : ResumeOptions) d1 d2 s =
      { s with
          columns := (resumeColumns s.columns 0
            (((s.sched.cancel s.timers.resume).cancel s.timers.start).schedule
              s.options.initialDelay.toNat Action.startBody).2).1,
          sched := (resumeColumns s.columns 0
            (((s.sched.cancel s.timers.resume).cancel s.timers.start).schedule
              s.options.initialDelay.toNat Action.startBody).2).2,
          timers := { s.timers with start := some s.sched.nextId } } := by
    rw [runResume_nonpos {} d1 d2 s (by decide)]
    show resumeBody false d1 d2 { s with sched := s.sched.cancel s.timers.resume } = _
    simp only [resumeBody]
    rw [runStart_default_pos d1 d2 { s with sched := s.sched.cancel s.timers.resume }
      hinit hdur]
    rw [← hb]
    rfl
  rw [hrw]
  refine ⟨rfl, ?_, ?_, ?_⟩
  · have h0 := Sched.self_mem_schedule
      ((s.sched.cancel s.timers.resume).cancel s.timers.start)
      s.options.initialDelay.toNat Action.startBody
    rw [hb] at h0
    exact resumeColumns_mem s.columns 0 _ _ h0
  · exact resumeColumns_length s.columns 0 _
  · intro k col r c hk hr
    constructor
    · intro hu
      refine ⟨(resumeColumns_spec s.columns 0 _ k col r c hk hr).1 hu, ?_⟩
      intro tk htk g hg
      rcases resumeColumns_new_tasks s.columns 0 _ tk htk with
        h2 | ⟨k2, col2, r2, c2, hk2, hr2, hcu2, ha2⟩
      · rcases Sched.mem_schedule_cases _ _ _ tk h2 with h3 | h3
        · exact hwf tk (Sched.mem_of_mem_cancel _ _ tk
            (Sched.mem_of_mem_cancel _ _ tk h3))
        · rw [h3] at hg
          simp at hg
      · rw [hg] at ha2
        rw [Action.updateCell.injEq] at ha2
        obtain ⟨hke, hre, _⟩ := ha2
        have hke2 : k2 = k := by omega
        subst hke2
        subst hre
        rw [hk] at hk2
        injection hk2 with hc2
        subst hc2
        rw [hr] at hr2
        injection hr2 with hc3
        subst hc3
        rw [hu] at hcu2
        cases hcu2
    · intro hu
      obtain ⟨id, hcell, htask⟩ :=
        (resumeColumns_spec s.columns 0 _ k col r c hk hr).2 hu
      refine ⟨id, hcell, ?_⟩
      rw [Nat.zero_add] at htask
      exact htask

/-- Witness for claim C3 at the concrete monitor: the walk leaves the
already-displayed cell untouched and reschedules the pending one. -/
theorem resume_reschedules_witness :
    (0 < sampleMonitor.options.initialDelay
     ∧ sampleMonitor.options.mainLoopDuration = none
     ∧ ∀ tk ∈ sampleMonitor.sched.tasks, tk.id < sampleMonitor.sched.nextId)
    ∧ (runResume {} (fun _ => 0) (fun _ => 0) sampleMonitor).timers.start
        = some sampleMonitor.sched.nextId := by
  refine ⟨⟨by decide, by decide, by decide⟩, ?_⟩
  exact (resume_reschedules sampleMonitor (fun _ => 0) (fun _ => 0)
    (by decide) (by decide) (by decide)).1

end MatrixMon

namespace MatrixMon

/-! Claim C7: the error behaviour of the public operations.  The throw
statements reachable from the operations the claim lists are the two
validation throws of the draw method (part_000 lines 590-599); the start,
pause, resume, stop and glitch bodies contain none, so their embeddings
into the error monad are total and always return ok. -/

/-- The message of both validation throws of the draw method. -/
def drawErrorMessage : String :=
  "ASCII image must be a string or a multidimensional array of rows by columns"

/-- The string-image normalization of draw (part_000 line 595): split on
newlines, each row becoming the list of its one-character glyphs. -/
def splitImage (t : String) : List ImgRow :=
  (t.splitOn "\x0a").map
    (fun row => ImgRow.cells (row.toList.map (fun ch => some ch.toString)))

/-- Embeds the draw method up to and including its validation (part_000
lines 590-599) in the error monad: a string is split into rows, an array
whose first element is an array is passed through, and anything else
raises. -/
def drawOp : ImageArg → Except String (List ImgRow)
  | .str t => Except.ok (splitImage t)
  | .arr rows =>
    match rows.head? with
    | some (.cells _) => Except.ok rows
    | _ => Except.error drawErrorMessage

/-- Options record of the glitch method with the source defaults
(part_000 lines 563-567). -/
structure GlitchOptions where
  delay : Nat := 0
  duration : Nat := 3000
deriving Repr

/-- Embeds the private glitch method (part_000 lines 563-568): one
setTimeout of the user callback at the requested delay, nothing else. -/
def runGlitch (opts : GlitchOptions) (s : MonitorState) : MonitorState :=
  { s with sched := (s.sched.schedule opts.delay Action.glitchCall).2 }

/-- The start method in the error monad: its body has no throw. -/
def startOp (opts : StartOptions) (d1 d2 : Nat → Nat) (s : MonitorState) :
    Except String MonitorState :=
  Except.ok (runStart opts d1 d2 s)

/-- The pause method in the error monad: its body has no throw. -/
def pauseOp (opts : PauseOptions) (s : MonitorState) : Except String MonitorState :=
  Except.ok (runPause opts s)

/-- The resume method in the error monad: its body has no throw. -/
def resumeOp (opts : ResumeOptions) (d1 d2 : Nat → Nat) (s : MonitorState) :
    Except String MonitorState :=
  Except.ok (runResume opts d1 d2 s)

/-- The stop method in the error monad: its body has no throw. -/
def stopOp (opts : StopOptions) (d2 : Nat → Nat) (s : MonitorState) :
    Except String MonitorState :=
  Except.ok (runStop opts d2 s)

/-- The glitch method in the error monad: its body has no throw. -/
def glitchOp (opts : GlitchOptions) (s : MonitorState) : Except String MonitorState :=
  Except.ok (runGlitch opts s)

/-- Claim C7, amended: draw raises an error exactly when its image
argument is neither a string nor an array whose FIRST element is itself an
array (the validation inspects only the first row, so a ragged array whose
later rows are not arrays is accepted); and the other public operations -
start, pause, resume, stop and glitch - never raise an error, for every
options record and every state, glitch scheduling its callback at the
requested delay, with the missing option fields of each operation
silently falling back to the source defaults. -/
theorem draw_error_spec :
    (∀ img, (drawThrows img = true ↔ (isStrImage img = false ∧ firstRowIsArr img = false))
      ∧ ((∃ e, drawOp img = Except.error e) ↔ drawThrows img = true))
    ∧ (∀ (opts : StartOptions) (d1 d2 : Nat → Nat) (s : MonitorState),
        startOp opts d1 d2 s = Except.ok (runStart opts d1 d2 s))
    ∧ (∀ (opts : PauseOptions) (s : MonitorState),
        pauseOp opts s = Except.ok (runPause opts s))
    ∧ (∀ (opts : ResumeOptions) (d1 d2 : Nat → Nat) (s : MonitorState),
        resumeOp opts d1 d2 s = Except.ok (runResume opts d1 d2 s))
    ∧ (∀ (opts : StopOptions) (d2 : Nat → Nat) (s : MonitorState),
        stopOp opts d2 s = Except.ok (runStop opts d2 s))
    ∧ (∀ (opts : GlitchOptions) (s : MonitorState),
        glitchOp opts s = Except.ok (runGlitch opts s)
        ∧ (⟨s.sched.nextId, opts.delay, Action.glitchCall⟩ : Task)
            ∈ (runGlitch opts s).sched.tasks)
    ∧ (({} : StartOptions).delay = none ∧ ({} : StartOptions).duration = none
       ∧ ({} : PauseOptions).delay = 0 ∧ ({} : PauseOptions).onlyTopCells = false
       ∧ ({} : PauseOptions).allAtOnce = false
       ∧ ({} : PauseOptions).minPauseDelay = 0
       ∧ ({} : PauseOptions).maxPauseDelay = 1000
       ∧ ({} : ResumeOptions).delay = 0 ∧ ({} : ResumeOptions).onlyTopCells = false
       ∧ ({} : StopOptions).delay = 0 ∧ ({} : StopOptions).clearScreen = false
       ∧ ({} : GlitchOptions).delay = 0 ∧ ({} : GlitchOptions).duration = 3000) := by
  refine ⟨?_, fun _ _ _ _ => rfl, fun _ _ => rfl, fun _ _ _ _ => rfl, fun _ _ _ => rfl,
    fun opts s => ⟨rfl, Sched.self_mem_schedule s.sched opts.delay Action.glitchCall⟩,
    rfl, rfl, rfl, rfl, rfl, rfl, rfl, rfl, rfl, rfl, rfl, rfl, rfl⟩
  intro img
  refine ⟨?_, ?_, ?_⟩
  · cases img with
    | str t => simp [drawThrows, isStrImage, firstRowIsArr]
    | arr rows =>
      cases hrows : rows.head? with
      | none => simp [drawThrows, isStrImage, firstRowIsArr, hrows]
      | some r =>
        cases r <;> simp [drawThrows, isStrImage, firstRowIsArr, hrows]
  · rintro ⟨e, he⟩
    cases img with
    | str t => simp [drawOp] at he
    | arr rows =>
      cases hrows : rows.head? with
      | none => simp [drawThrows, hrows]
      | some r =>
        cases r with
        | cells cs => simp [drawOp, hrows] at he
        | notArray t => simp [drawThrows, hrows]
  · intro h
    cases img with
    | str t => simp [drawThrows] at h
    | arr rows =>
      cases hrows : rows.head? with
      | none => exact ⟨drawErrorMessage, by simp [drawOp, hrows]⟩
      | some r =>
        cases r with
        | cells cs => simp [drawThrows, hrows] at h
        | notArray t => exact ⟨drawErrorMessage, by simp [drawOp, hrows]⟩

end MatrixMon
